import Mathlib

/-!
# openai-proxy: the `/message` relay of `main.go`

A shallow embedding of the POST `/message` handler of `src/main.go`.

* Go strings are lists of characters (the upstream body is taken to be valid
  UTF-8 text, one `Char` per code point).
* The upstream response body is a `Reader`: the bytes still to be read and the
  condition met after them (clean end-of-stream, or a transport error).
* The client connection is a trace of `Effect`s, in program order.
* `encoding/json`, the `gin` driver `Context.Stream` and the HTTP client are
  libraries outside the repository.  The JSON decoders are a parameter
  (`Decoder`) of the handler; `goJson` is a concrete reading of
  `encoding/json` for the four target types of `main.go`, used to evaluate the
  handler on concrete inputs.  Calls to `fmt.Println` (logging to the server
  console) are left out.
-/

namespace OpenAIProxy

/-! ## Package `strings` -/

/-- Go `strings.HasPrefix(s, p)`. -/
def HasPrefix (s p : List Char) : Bool := p.isPrefixOf s

/-- Go `strings.TrimPrefix(s, p)`. -/
def TrimPrefix (s p : List Char) : List Char :=
  if HasPrefix s p then s.drop p.length else s

/-- Go `unicode.IsSpace`. -/
def isSpace (c : Char) : Bool :=
  c.toNat = 0x09 || c.toNat = 0x0A || c.toNat = 0x0B || c.toNat = 0x0C || c.toNat = 0x0D ||
  c.toNat = 0x20 || c.toNat = 0x85 || c.toNat = 0xA0 || c.toNat = 0x1680 ||
  (0x2000 ≤ c.toNat && c.toNat ≤ 0x200A) || c.toNat = 0x2028 || c.toNat = 0x2029 ||
  c.toNat = 0x202F || c.toNat = 0x205F || c.toNat = 0x3000

/-- Go `strings.TrimSpace(s)`: leading and trailing white space removed. -/
def TrimSpace (s : List Char) : List Char :=
  ((s.dropWhile isSpace).reverse.dropWhile isSpace).reverse

/-! ## The upstream body and `bufio.Reader.ReadString` -/

/-- The `error` returned by a read of the upstream body. -/
inductive ReadErr where
  | eof
  | other (msg : List Char)
  deriving DecidableEq, Repr

/-- Go `err.Error()`. -/
def ReadErr.Error : ReadErr → List Char
  | .eof => "EOF".toList
  | .other msg => msg

/-- The unread part of `resp.Body`: the bytes that will still arrive, and what
a read meets after them (`none`: clean end-of-stream, `some msg`: a transport
error with that message). -/
structure Reader where
  data : List Char
  fail : Option (List Char)
  deriving DecidableEq, Repr

/-- The error a read returns once the data is exhausted. -/
def Reader.terminal (r : Reader) : ReadErr :=
  match r.fail with
  | none => .eof
  | some msg => .other msg

/-- The bytes up to and including the first newline, and the bytes after it;
`none` when there is no newline. -/
def readLine : List Char → Option (List Char × List Char)
  | [] => none
  | c :: cs =>
    if c = '\n' then some ([c], cs)
    else match readLine cs with
      | some (l, rest) => some (c :: l, rest)
      | none => none

/-- What `reader.ReadString` returns, with the reader after the call. -/
structure ReadResult where
  line : List Char
  err : Option ReadErr
  reader : Reader
  deriving DecidableEq, Repr

/-- Go `bufio.Reader.ReadString` with delimiter newline: the line with its
newline and a nil error; when the data ends before a newline, the data read so
far and the error. -/
def ReadString (r : Reader) : ReadResult :=
  match readLine r.data with
  | some (l, rest) => { line := l, err := none, reader := { r with data := rest } }
  | none => { line := r.data, err := some r.terminal, reader := { r with data := [] } }

/-- A stream of complete lines: every line followed by its newline. -/
def unlines : List (List Char) → List Char
  | [] => []
  | l :: ls => l ++ '\n' :: unlines ls

/-! ## The JSON target types of `main.go` -/

/-- An element of `reqBody.Messages`. -/
structure Message where
  Role : List Char
  Content : List Char
  deriving DecidableEq, Repr

/-- The `reqBody` struct (lines 31-37). -/
structure ReqBody where
  ThreadID : List Char
  Messages : List Message
  deriving DecidableEq, Repr

/-- The inner `Error` struct of `errorResponse` (lines 85-92). -/
structure ErrorDetail where
  Message : List Char
  Type_ : List Char
  Param : List Char
  Code : List Char
  deriving DecidableEq, Repr

/-- The `Text` struct of a content fragment (lines 159-161). -/
structure ContentText where
  Value : List Char
  deriving DecidableEq, Repr

/-- An element of `delta.Delta.Content` (lines 156-162). -/
structure Content where
  Index : Int
  Type_ : List Char
  Text : ContentText
  deriving DecidableEq, Repr

/-- The JSON decoding calls of the handler, as functions of the text they are
given.  `bindRequest` is `c.ShouldBindJSON(&reqBody)`; `errorResponse` is
`json.NewDecoder(resp.Body).Decode(&errorResponse)` and returns the inner
`Error` struct as the call leaves it together with the error of the call;
`runCreated` and `delta` are the two `json.Unmarshal` calls, returning the
`ThreadID` field, respectively the `Delta.Content` slice. -/
structure Decoder where
  bindRequest : List Char → Except (List Char) ReqBody
  errorResponse : Reader → ErrorDetail × Option (List Char)
  runCreated : List Char → Except (List Char) (List Char)
  delta : List Char → Except (List Char) (List Content)

/-! ## The client connection -/

/-- The value under the key `error` of the `gin.H` passed to `c.JSON`: an error
text (`err.Error()` or the fixed configuration message), or the decoded
upstream `Error` struct. -/
inductive ErrBody where
  | text (msg : List Char)
  | detail (d : ErrorDetail)
  deriving DecidableEq, Repr

/-- What the handler does to the client connection. -/
inductive Effect where
  /-- The call `c.JSON(status, gin.H{"error": body})`. -/
  | json (status : Nat) (body : ErrBody)
  /-- The call `fmt.Fprintf(w, format, arg)`. -/
  | fprintf (format : List Char) (arg : List Char)
  /-- The call `c.Writer.Flush()` (in the handler) or `w.Flush()` (in the driver). -/
  | flush
  deriving DecidableEq, Repr

/-- Go `fmt.Sprintf(format, arg)` for a string argument and a format whose only
verb is one `%s`, as both formats of `main.go` are: the argument replaces the
verb, byte for byte. -/
def Sprintf : List Char → List Char → List Char
  | [], _ => []
  | '%' :: 's' :: rest, arg => arg ++ rest
  | c :: rest, arg => c :: Sprintf rest arg

/-- The format of line 137. -/
def threadIDFormat : List Char := "\x7b\"thread_id\":\"%s\"\x7d\n".toList

/-- The format of line 176. -/
def textFormat : List Char := "%s".toList

/-- The bytes an effect writes to the response body as a stream chunk, if any. -/
def Effect.chunk : Effect → Option (List Char)
  | .fprintf format arg => some (Sprintf format arg)
  | _ => none

/-- The HTTP status an effect sets, if any. -/
def Effect.status : Effect → Option Nat
  | .json status _ => some status
  | _ => none

/-- The chunks written to the client, in order. -/
def chunks (out : List Effect) : List (List Char) := out.filterMap Effect.chunk

/-- The session-identifier announcements written: the calls of line 137. -/
def announcements (out : List Effect) : List Effect :=
  out.filter fun e => match e with
    | .fprintf format _ => format = threadIDFormat
    | _ => false

/-! ## The streaming step function (lines 101-190) -/

/-- The variables the step closure works on: the body reader (line 98), the
variable `threadID` (line 99) and the client connection so far. -/
structure StreamState where
  reader : Reader
  threadID : List Char
  out : List Effect
  deriving DecidableEq, Repr

/-- How a block of the loop body ends: execution goes on to the next statement,
or the step function executes `return false`. -/
inductive Flow where
  | next (st : StreamState)
  | stop (st : StreamState)
  deriving DecidableEq, Repr

/-- The beginning tested at line 114. -/
def evCreated : List Char := "event: thread.run.created".toList

/-- The beginning tested at line 141. -/
def evDelta : List Char := "event: thread.message.delta".toList

/-- The first beginning tested at line 183. -/
def evCompleted : List Char := "event: thread.run.completed".toList

/-- The second beginning tested at line 183. -/
def evDone : List Char := "event: done".toList

/-- The marker of a data line (lines 121, 148, 149). -/
def dataTag : List Char := "data: ".toList

/-- The marker of an event line. -/
def eventTag : List Char := "event: ".toList

/-- The four event names the relay tests for. -/
def eventNames : List (List Char) :=
  ["thread.run.created".toList, "thread.message.delta".toList,
   "thread.run.completed".toList, "done".toList]

/-- The state a block ends in. -/
def Flow.state : Flow → StreamState
  | .next st => st
  | .stop st => st

/-- The call `c.JSON(http.StatusInternalServerError, gin.H{"error": err.Error()})`
followed by `return false`. -/
def abort (st : StreamState) (msg : List Char) : Flow :=
  .stop { st with out := st.out ++ [.json 500 (.text msg)] }

/-- Lines 114-139: the `thread.run.created` block. -/
def createdBlock (dec : Decoder) (line : List Char) (st : StreamState) : Flow :=
  if HasPrefix line evCreated then
    let rd := ReadString st.reader
    match rd.err with
    | some err => abort { st with reader := rd.reader } err.Error
    | none =>
      let dataLine := TrimSpace (TrimPrefix rd.line dataTag)
      match dec.runCreated dataLine with
      | .error e => abort { st with reader := rd.reader } e
      | .ok id =>
        .next { reader := rd.reader, threadID := id,
                out := st.out ++ [.fprintf threadIDFormat id, .flush] }
  else .next st

/-- Lines 174-179: one `Fprintf` and one `Flush` for every fragment whose type
is `text`, in slice order. -/
def writeContents : List Content → List Effect
  | [] => []
  | content :: rest =>
    if content.Type_ = "text".toList then
      .fprintf textFormat content.Text.Value :: .flush :: writeContents rest
    else writeContents rest

/-- Lines 141-181: the `thread.message.delta` block. -/
def deltaBlock (dec : Decoder) (line : List Char) (st : StreamState) : Flow :=
  if HasPrefix line evDelta then
    let rd := ReadString st.reader
    match rd.err with
    | some err => abort { st with reader := rd.reader } err.Error
    | none =>
      if HasPrefix rd.line dataTag then
        let dataLine := TrimSpace (TrimPrefix rd.line dataTag)
        match dec.delta dataLine with
        | .error e => abort { st with reader := rd.reader } e
        | .ok content =>
          .next { st with reader := rd.reader, out := st.out ++ writeContents content }
      else .next { st with reader := rd.reader }
  else .next st

/-- Lines 183-187: the terminal-event block. -/
def terminalBlock (line : List Char) (st : StreamState) : Flow :=
  if HasPrefix line evCompleted || HasPrefix line evDone then
    .stop { st with out := st.out ++ [.flush] }
  else .next st

/-- The `for` loop of the step function with its return value (`true` after the
`break` at end-of-stream, `false` at every `return false`).  The first argument
bounds the number of iterations; `none` means the bound was reached. -/
def loop (dec : Decoder) : Nat → StreamState → Option (Bool × StreamState)
  | 0, _ => none
  | fuel + 1, st =>
    let rd := ReadString st.reader
    match rd.err with
    | some .eof => some (true, { st with reader := rd.reader })
    | some (.other msg) =>
      some (false, { st with reader := rd.reader, out := st.out ++ [.json 500 (.text msg)] })
    | none =>
      match createdBlock dec rd.line { st with reader := rd.reader } with
      | .stop s => some (false, s)
      | .next s1 =>
        match deltaBlock dec rd.line s1 with
        | .stop s => some (false, s)
        | .next s2 =>
          match terminalBlock rd.line s2 with
          | .stop s => some (false, s)
          | .next s3 => loop dec fuel s3

/-- One invocation of the step function passed to `c.Stream`.  Every iteration
of the loop that goes round consumes a line, so one iteration more than there
are unread bytes is enough (`step_isSome`). -/
def step (dec : Decoder) (st : StreamState) : Option (Bool × StreamState) :=
  loop dec (st.reader.data.length + 1) st

/-- The driver `gin.Context.Stream` (library code): it invokes the step
function, flushes, and invokes it again as long as it returned `true`; it
returns when the step function returns `false`.  The client is taken to stay
connected.  The first argument bounds the number of invocations; the boolean of
the result tells whether `Stream` has returned within them. -/
def Stream (dec : Decoder) : Nat → StreamState → Option (Bool × StreamState)
  | 0, st => some (false, st)
  | n + 1, st =>
    match step dec st with
    | none => none
    | some (keepOpen, st1) =>
      let st2 := { st1 with out := st1.out ++ [.flush] }
      if keepOpen then Stream dec n st2 else some (true, st2)

/-! ## The handler up to the stream (lines 30-98) -/

/-- The value of the inner map of the payload. -/
inductive InnerVal where
  | messages (ms : List Message)
  deriving DecidableEq, Repr

/-- A value of the `map[string]interface{}` built at lines 53-62. -/
inductive PayloadVal where
  | str (s : List Char)
  | bool (b : Bool)
  | map (kvs : List (List Char × InnerVal))
  deriving DecidableEq, Repr

/-- A Go map with string keys, as an association list with distinct keys. -/
abbrev Payload := List (List Char × PayloadVal)

/-- Go `m[k] = v`. -/
def mapSet (m : Payload) (k : List Char) (v : PayloadVal) : Payload :=
  match m with
  | [] => [(k, v)]
  | (k1, v1) :: rest => if k1 = k then (k, v) :: rest else (k1, v1) :: mapSet rest k v

/-- Go `m[k]` with its presence flag. -/
def mapGet (m : Payload) (k : List Char) : Option PayloadVal :=
  match m with
  | [] => none
  | (k1, v1) :: rest => if k1 = k then some v1 else mapGet rest k

/-- Lines 53-62: the upstream run payload. -/
def requestPayload (assistantID : List Char) (reqBody : ReqBody) : Payload :=
  let requestPayload : Payload :=
    [ ("assistant_id".toList, .str assistantID),
      ("thread".toList, .map [("messages".toList, .messages reqBody.Messages)]),
      ("stream".toList, .bool true) ]
  if reqBody.ThreadID ≠ [] then
    mapSet requestPayload "thread_id".toList (.str reqBody.ThreadID)
  else requestPayload

/-- The request handed to `client.Do`; `Body` is the payload that
`json.Marshal` serialises. -/
structure UpstreamRequest where
  Method : List Char
  URL : List Char
  Header : List (List Char × List Char)
  Body : Payload
  deriving DecidableEq, Repr

/-- Lines 65-75: the request for the fixed endpoint, with its three headers. -/
def newRequest (apiKey : List Char) (payload : Payload) : UpstreamRequest :=
  { Method := "POST".toList,
    URL := "https://api.openai.com/v1/threads/runs".toList,
    Header := [ ("Authorization".toList, Sprintf "Bearer %s".toList apiKey),
                ("Content-Type".toList, "application/json".toList),
                ("OpenAI-Beta".toList, "assistants=v2".toList) ],
    Body := payload }

/-- The upstream response: `resp.StatusCode` and `resp.Body`. -/
structure Response where
  StatusCode : Nat
  Body : Reader
  deriving DecidableEq, Repr

/-- The call `client.Do(req)`: the upstream, as seen by the handler. -/
abbrev Client := UpstreamRequest → Except (List Char) Response

/-- One run of the handler: the upstream calls made, the effects on the client
connection in order, and whether the handler has returned. -/
structure Run where
  calls : List UpstreamRequest
  out : List Effect
  returned : Bool
  deriving DecidableEq, Repr

/-- The fixed message of line 48. -/
def missingConfig : List Char := "Missing API key or assistant ID".toList

/-- The POST `/message` handler (lines 30-191).  `body` is the request body,
`apiKey` and `assistantID` are the values of the two environment variables, and
`n` bounds the invocations of the step function by the driver.  The error branch
of `http.NewRequest` (lines 68-71) cannot be taken for the constant method and
URL and is left out. -/
def handler (dec : Decoder) (client : Client) (n : Nat) (body apiKey assistantID : List Char) :
    Option Run :=
  match dec.bindRequest body with
  | .error e => some { calls := [], out := [.json 400 (.text e)], returned := true }
  | .ok reqBody =>
    if apiKey = [] ∨ assistantID = [] then
      some { calls := [], out := [.json 500 (.text missingConfig)], returned := true }
    else
      let req := newRequest apiKey (requestPayload assistantID reqBody)
      match client req with
      | .error e => some { calls := [req], out := [.json 500 (.text e)], returned := true }
      | .ok resp =>
        if resp.StatusCode ≠ 200 then
          some { calls := [req],
                 out := [.json resp.StatusCode (.detail (dec.errorResponse resp.Body).1)],
                 returned := true }
        else
          match Stream dec n { reader := resp.Body, threadID := [], out := [] } with
          | none => none
          | some (ret, st) => some { calls := [req], out := st.out, returned := ret }

/-! ## A reading of `encoding/json`

`goJson` below instantiates `Decoder`.  It follows the documented behaviour of
`encoding/json`: the grammar of RFC 8259; object keys matched to the `json` tags
exactly or under case folding; unknown keys skipped; `null` leaving the target
as it is; a value of the wrong kind leaving the field as it is and making the
call return the first such error after the rest has been decoded.  The texts of
the error messages are indicative only, and the limit of `encoding/json` on the
nesting depth of a value (10000) is not modelled. -/

/-- A JSON value; a number keeps its literal. -/
inductive JSON where
  | null
  | bool (b : Bool)
  | num (lit : List Char)
  | str (s : List Char)
  | arr (xs : List JSON)
  | obj (kvs : List (List Char × JSON))

/-- JSON white space. -/
def isWs (c : Char) : Bool := c = ' ' || c = '\t' || c = '\r' || c = '\n'

def skipWs (cs : List Char) : List Char := cs.dropWhile isWs

def isDigit (c : Char) : Bool := '0'.toNat ≤ c.toNat && c.toNat ≤ '9'.toNat

def hexVal (c : Char) : Option Nat :=
  if '0'.toNat ≤ c.toNat && c.toNat ≤ '9'.toNat then some (c.toNat - '0'.toNat)
  else if 'a'.toNat ≤ c.toNat && c.toNat ≤ 'f'.toNat then some (c.toNat - 'a'.toNat + 10)
  else if 'A'.toNat ≤ c.toNat && c.toNat ≤ 'F'.toNat then some (c.toNat - 'A'.toNat + 10)
  else none

/-- The value of four hexadecimal digits. -/
def hex4 (a b c d : Char) : Option Nat :=
  match hexVal a, hexVal b, hexVal c, hexVal d with
  | some x, some y, some z, some w => some (((x * 16 + y) * 16 + z) * 16 + w)
  | _, _, _, _ => none

/-- The characters of a string literal after its opening quote, unescaped, and
the text after the closing quote.  A lone surrogate escape decodes to U+FFFD. -/
def parseString : Nat → List Char → Option (List Char × List Char)
  | 0, _ => none
  | _ + 1, [] => none
  | _ + 1, '"' :: rest => some ([], rest)
  | n + 1, '\\' :: 'u' :: a :: b :: c :: d :: rest =>
    match hex4 a b c d with
    | none => none
    | some hi =>
      if 0xD800 ≤ hi ∧ hi < 0xDC00 then
        match rest with
        | '\\' :: 'u' :: a2 :: b2 :: c2 :: d2 :: rest2 =>
          match hex4 a2 b2 c2 d2 with
          | none => none
          | some lo =>
            if 0xDC00 ≤ lo ∧ lo < 0xE000 then
              (parseString n rest2).map fun r =>
                (Char.ofNat (0x10000 + (hi - 0xD800) * 0x400 + (lo - 0xDC00)) :: r.1, r.2)
            else (parseString n rest).map fun r => (Char.ofNat 0xFFFD :: r.1, r.2)
        | _ => (parseString n rest).map fun r => (Char.ofNat 0xFFFD :: r.1, r.2)
      else if 0xDC00 ≤ hi ∧ hi < 0xE000 then
        (parseString n rest).map fun r => (Char.ofNat 0xFFFD :: r.1, r.2)
      else (parseString n rest).map fun r => (Char.ofNat hi :: r.1, r.2)
  | n + 1, '\\' :: e :: rest =>
    let unescaped : Option Char :=
      if e = '"' then some '"' else if e = '\\' then some '\\' else if e = '/' then some '/'
      else if e = 'b' then some (Char.ofNat 8) else if e = 'f' then some (Char.ofNat 12)
      else if e = 'n' then some '\n' else if e = 'r' then some '\r'
      else if e = 't' then some '\t' else none
    match unescaped with
    | none => none
    | some c => (parseString n rest).map fun r => (c :: r.1, r.2)
  | n + 1, c :: rest =>
    if c.toNat < 0x20 ∨ c = '\\' then none
    else (parseString n rest).map fun r => (c :: r.1, r.2)

/-- One or more digits, and the text after them. -/
def parseDigits (cs : List Char) : Option (List Char × List Char) :=
  match cs.span isDigit with
  | ([], _) => none
  | (ds, rest) => some (ds, rest)

/-- A number literal at the head of the text, and the text after it. -/
def parseNumber (cs : List Char) : Option (List Char × List Char) :=
  let sign : List Char := match cs with
    | '-' :: _ => ['-']
    | _ => []
  let cs1 := cs.drop sign.length
  let intPart : Option (List Char × List Char) :=
    match cs1 with
    | '0' :: rest => some (['0'], rest)
    | _ => parseDigits cs1
  match intPart with
  | none => none
  | some (ip, cs2) =>
    let frac : Option (List Char × List Char) :=
      match cs2 with
      | '.' :: rest => (parseDigits rest).map fun r => ('.' :: r.1, r.2)
      | _ => some ([], cs2)
    match frac with
    | none => none
    | some (fp, cs3) =>
      let expo : Option (List Char × List Char) :=
        match cs3 with
        | e :: rest =>
          if e = 'e' ∨ e = 'E' then
            match rest with
            | s :: rest2 =>
              if s = '+' ∨ s = '-' then (parseDigits rest2).map fun r => (e :: s :: r.1, r.2)
              else (parseDigits rest).map fun r => (e :: r.1, r.2)
            | [] => none
          else some ([], cs3)
        | [] => some ([], cs3)
      match expo with
      | none => none
      | some (ep, cs4) => some (sign ++ ip ++ fp ++ ep, cs4)

mutual
/-- A JSON value at the head of the text (after white space), and the text
after it. -/
def parseValue : Nat → List Char → Option (JSON × List Char)
  | 0, _ => none
  | n + 1, cs =>
    match skipWs cs with
    | [] => none
    | '{' :: rest =>
      match skipWs rest with
      | '}' :: rest2 => some (.obj [], rest2)
      | rest2 => (parseMembers n rest2).map fun r => (.obj r.1, r.2)
    | '[' :: rest =>
      match skipWs rest with
      | ']' :: rest2 => some (.arr [], rest2)
      | rest2 => (parseElements n rest2).map fun r => (.arr r.1, r.2)
    | '"' :: rest => (parseString (rest.length + 1) rest).map fun r => (.str r.1, r.2)
    | 't' :: 'r' :: 'u' :: 'e' :: rest => some (.bool true, rest)
    | 'f' :: 'a' :: 'l' :: 's' :: 'e' :: rest => some (.bool false, rest)
    | 'n' :: 'u' :: 'l' :: 'l' :: rest => some (.null, rest)
    | c :: rest => (parseNumber (c :: rest)).map fun r => (.num r.1, r.2)
/-- The members of an object after its opening brace, up to and including the
closing brace. -/
def parseMembers : Nat → List Char → Option (List (List Char × JSON) × List Char)
  | 0, _ => none
  | n + 1, cs =>
    match skipWs cs with
    | '"' :: rest =>
      match parseString (rest.length + 1) rest with
      | none => none
      | some (key, rest1) =>
        match skipWs rest1 with
        | ':' :: rest2 =>
          match parseValue n rest2 with
          | none => none
          | some (v, rest3) =>
            match skipWs rest3 with
            | ',' :: rest4 => (parseMembers n rest4).map fun r => ((key, v) :: r.1, r.2)
            | '}' :: rest4 => some ([(key, v)], rest4)
            | _ => none
        | _ => none
    | _ => none
/-- The elements of an array after its opening bracket, up to and including the
closing bracket. -/
def parseElements : Nat → List Char → Option (List JSON × List Char)
  | 0, _ => none
  | n + 1, cs =>
    match parseValue n cs with
    | none => none
    | some (v, rest) =>
      match skipWs rest with
      | ',' :: rest2 => (parseElements n rest2).map fun r => (v :: r.1, r.2)
      | ']' :: rest2 => some ([v], rest2)
      | _ => none
end

/-- The first JSON value of a text, and the text after it (what a
`json.Decoder` reads for one `Decode`). -/
def parseFirst (cs : List Char) : Option (JSON × List Char) :=
  parseValue (2 * cs.length + 2) cs

/-- A text that is one JSON value with white space around it (what
`json.Unmarshal` and `json.Valid` accept). -/
def parseJSON (cs : List Char) : Option JSON :=
  match parseFirst cs with
  | some (v, rest) => if skipWs rest = [] then some v else none
  | none => none

/-- The name of the kind of a JSON value, for error messages. -/
def JSON.kind : JSON → List Char
  | .null => "null".toList
  | .bool _ => "bool".toList
  | .num _ => "number".toList
  | .str _ => "string".toList
  | .arr _ => "array".toList
  | .obj _ => "object".toList

/-- The message of an `UnmarshalTypeError`. -/
def typeError (v : JSON) (target : List Char) : List Char :=
  "json: cannot unmarshal ".toList ++ v.kind ++ " into Go value of type ".toList ++ target

/-- The message of a `SyntaxError`. -/
def syntaxError : List Char := "invalid character looking for beginning of value".toList

/-- Simple case folding of a character, onto lower-case ASCII letters. -/
def foldRune (c : Char) : Char :=
  if c.toNat = 0x212A then 'k'
  else if c.toNat = 0x17F then 's'
  else if 'A'.toNat ≤ c.toNat ∧ c.toNat ≤ 'Z'.toNat then Char.ofNat (c.toNat + 32)
  else c

/-- Whether an object key selects the field with the given (lower-case ASCII)
`json` tag: an exact match, or a match under case folding. -/
def keyMatches (key tag : List Char) : Bool := key = tag || key.map foldRune = tag

/-- The first error saved during a decode. -/
def firstErr : Option (List Char) → Option (List Char) → Option (List Char)
  | some e, _ => some e
  | none, e => e

/-- Decoding into a `string`. -/
def bindString (cur : List Char) : JSON → List Char × Option (List Char)
  | .str s => (s, none)
  | .null => (cur, none)
  | v => (cur, some (typeError v "string".toList))

/-- The value of a number literal as a 64-bit `int`: digits only, in range. -/
def intOfLit (lit : List Char) : Option Int :=
  let neg : Bool := match lit with
    | '-' :: _ => true
    | _ => false
  let ds := if neg then lit.drop 1 else lit
  if ds ≠ [] ∧ ds.all isDigit = true then
    let m : Nat := ds.foldl (fun acc c => acc * 10 + (c.toNat - '0'.toNat)) 0
    let v : Int := if neg then -(m : Int) else (m : Int)
    if -(2 ^ 63 : Int) ≤ v ∧ v < 2 ^ 63 then some v else none
  else none

/-- Decoding into an `int`. -/
def bindInt (cur : Int) : JSON → Int × Option (List Char)
  | .num lit =>
    match intOfLit lit with
    | some i => (i, none)
    | none => (cur, some (typeError (.num lit) "int".toList))
  | .null => (cur, none)
  | v => (cur, some (typeError v "int".toList))

/-- The members of an object decoded one after the other into a struct. -/
def bindMembers {α : Type} (field : α → List Char → JSON → α × Option (List Char)) :
    α → List (List Char × JSON) → α × Option (List Char)
  | cur, [] => (cur, none)
  | cur, (k, v) :: rest =>
    let r1 := field cur k v
    let r2 := bindMembers field r1.1 rest
    (r2.1, firstErr r1.2 r2.2)

/-- Decoding into a struct whose fields are decoded by `field`. -/
def bindStruct {α : Type} (field : α → List Char → JSON → α × Option (List Char))
    (target : List Char) (cur : α) : JSON → α × Option (List Char)
  | .obj kvs => bindMembers field cur kvs
  | .null => (cur, none)
  | v => (cur, some (typeError v target))

/-- The elements of an array decoded one after the other into a slice: element
`i` is decoded into the element the slice already has at `i` (as left by an
earlier occurrence of the same key), or into a zero value when it has none. -/
def bindElements {α : Type} (elem : α → JSON → α × Option (List Char)) (zero : α) :
    List α → List JSON → List α × Option (List Char)
  | _, [] => ([], none)
  | cur, v :: rest =>
    let r1 := elem (cur.head?.getD zero) v
    let r2 := bindElements elem zero cur.tail rest
    (r1.1 :: r2.1, firstErr r1.2 r2.2)

/-- Decoding into a slice: an array sets its length to the number of elements
and decodes them in place, `null` sets it to nil. -/
def bindSlice {α : Type} (elem : α → JSON → α × Option (List Char)) (zero : α)
    (target : List Char) (cur : List α) : JSON → List α × Option (List Char)
  | .arr xs => bindElements elem zero cur xs
  | .null => ([], none)
  | v => (cur, some (typeError v target))

def textField (t : ContentText) (key : List Char) (v : JSON) : ContentText × Option (List Char) :=
  if keyMatches key "value".toList then
    let r := bindString t.Value v
    ({ Value := r.1 }, r.2)
  else (t, none)

def contentField (c : Content) (key : List Char) (v : JSON) : Content × Option (List Char) :=
  if keyMatches key "index".toList then
    let r := bindInt c.Index v
    ({ c with Index := r.1 }, r.2)
  else if keyMatches key "type".toList then
    let r := bindString c.Type_ v
    ({ c with Type_ := r.1 }, r.2)
  else if keyMatches key "text".toList then
    let r := bindStruct textField "struct".toList c.Text v
    ({ c with Text := r.1 }, r.2)
  else (c, none)

/-- The inner `Delta` struct: its one field `Content`. -/
def deltaField (cs : List Content) (key : List Char) (v : JSON) :
    List Content × Option (List Char) :=
  if keyMatches key "content".toList then
    bindSlice (bindStruct contentField "struct".toList) ⟨0, [], ⟨[]⟩⟩ "slice".toList cs v
  else (cs, none)

/-- The `delta` struct of lines 154-164: its one field `Delta`. -/
def deltaEventField (cs : List Content) (key : List Char) (v : JSON) :
    List Content × Option (List Char) :=
  if keyMatches key "delta".toList then bindStruct deltaField "struct".toList cs v
  else (cs, none)

/-- The `runCreatedEvent` struct of lines 124-126: its one field `ThreadID`. -/
def runCreatedField (id : List Char) (key : List Char) (v : JSON) :
    List Char × Option (List Char) :=
  if keyMatches key "thread_id".toList then bindString id v else (id, none)

def errorDetailField (d : ErrorDetail) (key : List Char) (v : JSON) :
    ErrorDetail × Option (List Char) :=
  if keyMatches key "message".toList then
    let r := bindString d.Message v
    ({ d with Message := r.1 }, r.2)
  else if keyMatches key "type".toList then
    let r := bindString d.Type_ v
    ({ d with Type_ := r.1 }, r.2)
  else if keyMatches key "param".toList then
    let r := bindString d.Param v
    ({ d with Param := r.1 }, r.2)
  else if keyMatches key "code".toList then
    let r := bindString d.Code v
    ({ d with Code := r.1 }, r.2)
  else (d, none)

/-- The `errorResponse` struct of lines 85-92: its one field `Error`. -/
def errorResponseField (d : ErrorDetail) (key : List Char) (v : JSON) :
    ErrorDetail × Option (List Char) :=
  if keyMatches key "error".toList then bindStruct errorDetailField "struct".toList d v
  else (d, none)

def messageField (m : Message) (key : List Char) (v : JSON) : Message × Option (List Char) :=
  if keyMatches key "role".toList then
    let r := bindString m.Role v
    ({ m with Role := r.1 }, r.2)
  else if keyMatches key "content".toList then
    let r := bindString m.Content v
    ({ m with Content := r.1 }, r.2)
  else (m, none)

def reqBodyField (b : ReqBody) (key : List Char) (v : JSON) : ReqBody × Option (List Char) :=
  if keyMatches key "thread_id".toList then
    let r := bindString b.ThreadID v
    ({ b with ThreadID := r.1 }, r.2)
  else if keyMatches key "messages".toList then
    let r := bindSlice (bindStruct messageField "struct".toList) ⟨[], []⟩ "slice".toList
      b.Messages v
    ({ b with Messages := r.1 }, r.2)
  else (b, none)

/-- Go `json.Unmarshal(data, &target)` for a struct target starting at `zero`:
a syntax error when the text is not one JSON value, else the decoded struct, or
the first type error. -/
def Unmarshal {α : Type} (field : α → List Char → JSON → α × Option (List Char)) (zero : α)
    (data : List Char) : Except (List Char) α :=
  match parseJSON data with
  | none => .error syntaxError
  | some v =>
    match bindStruct field "struct".toList zero v with
    | (a, none) => .ok a
    | (_, some e) => .error e

/-- Go `json.NewDecoder(r).Decode(&target)` for a struct target starting at
`zero`, on the text `data`: the struct as the call leaves it, and its error.
Only the first JSON value of the text is read. -/
def Decode {α : Type} (field : α → List Char → JSON → α × Option (List Char)) (zero : α)
    (data : List Char) : α × Option (List Char) :=
  match parseFirst data with
  | none => (zero, some syntaxError)
  | some (v, _) => bindStruct field "struct".toList zero v

/-- The decoders of `main.go` under this reading of `encoding/json`. -/
def goJson : Decoder where
  bindRequest body :=
    match Decode reqBodyField ⟨[], []⟩ body with
    | (b, none) => .ok b
    | (_, some e) => .error e
  errorResponse r := Decode errorResponseField ⟨[], [], [], []⟩ r.data
  runCreated data := Unmarshal runCreatedField [] data
  delta data := Unmarshal deltaEventField [] data

/-! ## Describing upstream streams and client output -/

/-- An upstream event the relay acts on, as its two lines are written
(`payload` is the text after the `data: ` marker), together with what its data
line decodes to. -/
inductive Event where
  | created (payload : List Char) (id : List Char)
  | delta (payload : List Char) (content : List Content)

/-- The `event:` line and the `data:` line of each event, in order. -/
def eventLines : List Event → List (List Char)
  | [] => []
  | .created payload _ :: evs => evCreated :: (dataTag ++ payload) :: eventLines evs
  | .delta payload _ :: evs => evDelta :: (dataTag ++ payload) :: eventLines evs

/-- The data line of the event is one line, and the decoder accepts the text
the relay extracts from it, with the recorded result. -/
def Event.Decoded (dec : Decoder) : Event → Prop
  | .created payload id =>
    '\n' ∉ payload ∧ dec.runCreated (TrimSpace (payload ++ ['\n'])) = .ok id
  | .delta payload content =>
    '\n' ∉ payload ∧ dec.delta (TrimSpace (payload ++ ['\n'])) = .ok content

/-- The number of newlines of a text that are followed by
`event: thread.run.created`. -/
def createdAfterNewline : List Char → Nat
  | [] => 0
  | c :: cs =>
    (if c = '\n' ∧ HasPrefix cs evCreated = true then 1 else 0) + createdAfterNewline cs

/-- The number of `thread.run.created` event lines an upstream body contains:
the lines that begin with `event: thread.run.created`. -/
def createdLines (data : List Char) : Nat :=
  (if HasPrefix data evCreated = true then 1 else 0) + createdAfterNewline data

/-- The session identifiers of the `thread.run.created` events, in order. -/
def createdIDs : List Event → List (List Char)
  | [] => []
  | .created _ id :: evs => id :: createdIDs evs
  | .delta _ _ :: evs => createdIDs evs

/-- The value of `threadID` after the events. -/
def lastThreadID (tid : List Char) : List Event → List Char
  | [] => tid
  | .created _ id :: evs => lastThreadID id evs
  | .delta _ _ :: evs => lastThreadID tid evs

/-- The effects of the events on the client connection. -/
def eventEffects : List Event → List Effect
  | [] => []
  | .created _ id :: evs => .fprintf threadIDFormat id :: .flush :: eventEffects evs
  | .delta _ content :: evs => writeContents content ++ eventEffects evs

/-- The `text.value` strings of the fragments whose type is `text`, in
fragment order. -/
def textValues (content : List Content) : List (List Char) :=
  (content.filter fun c => c.Type_ = "text".toList).map fun c => c.Text.Value

/-- The `text.value` strings of a sequence of deltas: in event order, then in
fragment order. -/
def deltaTexts : List (List Char × List Content) → List (List Char)
  | [] => []
  | e :: es => textValues e.2 ++ deltaTexts es

/-- A stream of `thread.message.delta` events only, from their payloads. -/
def deltaEvents (evs : List (List Char × List Content)) : List Event :=
  evs.map fun e => .delta e.1 e.2

/-- One write followed by one flush for every text. -/
def flushedWrites : List (List Char) → List Effect
  | [] => []
  | v :: vs => .fprintf textFormat v :: .flush :: flushedWrites vs

/-- The session identifier a chunk announces: the chunk is a JSON text that
decodes to an object whose only member is `thread_id`, with a string value. -/
def announcedID (chunk : List Char) : Option (List Char) :=
  match parseJSON chunk with
  | some (.obj [(k, .str s)]) => if k = "thread_id".toList then some s else none
  | _ => none

/-! ## Example inputs -/

deriving instance DecidableEq for Except

/-- A delta payload with a text fragment `Hel` and an image fragment. -/
def payloadHel : List Char :=
  "\x7b\"delta\":\x7b\"content\":[\x7b\"index\":0,\"type\":\"text\",\"text\":\x7b\"value\":\"Hel\"\x7d\x7d,\x7b\"index\":1,\"type\":\"image\"\x7d]\x7d\x7d".toList

/-- A delta payload with one text fragment `lo`. -/
def payloadLo : List Char :=
  "\x7b\"delta\":\x7b\"content\":[\x7b\"index\":0,\"type\":\"text\",\"text\":\x7b\"value\":\"lo\"\x7d\x7d]\x7d\x7d".toList

/-- Two consecutive deltas: fragments `Hel` (text) and an image, then `lo`. -/
def helloDeltas : List (List Char × List Content) :=
  [ (payloadHel, [⟨0, "text".toList, ⟨"Hel".toList⟩⟩, ⟨1, "image".toList, ⟨[]⟩⟩]),
    (payloadLo, [⟨0, "text".toList, ⟨"lo".toList⟩⟩]) ]

/-- Two `thread.run.created` events in one stream. -/
def twoCreated : List Event :=
  [ .created "\x7b\"thread_id\":\"t1\"\x7d".toList "t1".toList,
    .created "\x7b\"thread_id\":\"t2\"\x7d".toList "t2".toList ]

/-- A run-created event whose session identifier contains a double quote. -/
def quotedCreated : List Char :=
  "event: thread.run.created\ndata: \x7b\"thread_id\":\"a\\\"b\"\x7d\n".toList

/-- A run-created event announcing `abc123`, followed by the two deltas. -/
def abc123Stream : List Char :=
  "event: thread.run.created\ndata: \x7b\"thread_id\":\"abc123\"\x7d\n".toList ++
    unlines (eventLines (deltaEvents helloDeltas))

/-- An `event: done` line in the place of the data line of a delta, followed by
a delta with the text `late`. -/
def doneAsData : List Char :=
  "event: thread.message.delta\nevent: done\nevent: thread.message.delta\ndata: \x7b\"delta\":\x7b\"content\":[\x7b\"type\":\"text\",\"text\":\x7b\"value\":\"late\"\x7d\x7d]\x7d\x7d\n".toList

/-- A run-created event whose data line is not JSON, followed by an
`event: done` line. -/
def brokenCreated : List Char :=
  "event: thread.run.created\ndata: oops\nevent: done\n".toList

/-- The two lines of an event named `donezo`. -/
def donezoEvent : List Char := "event: donezo\ndata: \x7b\x7d\n".toList

/-- A delta with the text `hi`. -/
def hiDelta : List Char :=
  "event: thread.message.delta\ndata: \x7b\"delta\":\x7b\"content\":[\x7b\"type\":\"text\",\"text\":\x7b\"value\":\"hi\"\x7d\x7d]\x7d\x7d\n".toList

/-- The two lines of a delta with the text `hi`. -/
def hiLines : List (List Char) :=
  [ "event: thread.message.delta".toList,
    "data: \x7b\"delta\":\x7b\"content\":[\x7b\"type\":\"text\",\"text\":\x7b\"value\":\"hi\"\x7d\x7d]\x7d\x7d".toList ]

/-- What follows a `thread.run.completed` line in an upstream stream. -/
def afterCompleted : List Char := "data: \x7b\x7d\n\nevent: done\ndata: [DONE]\n\n".toList

/-- A request body with a session token and one message. -/
def turnRequest : List Char :=
  "\x7b\"thread_id\":\"thread_7\",\"messages\":[\x7b\"role\":\"user\",\"content\":\"hi\"\x7d]\x7d".toList

/-- The request `turnRequest` as bound. -/
def turnReqBody : ReqBody :=
  { ThreadID := "thread_7".toList, Messages := [⟨"user".toList, "hi".toList⟩] }

/-- An upstream that answers 429 with a structured error body. -/
def rateLimited : Client := fun _ =>
  .ok { StatusCode := 429,
        Body := ⟨"\x7b\"error\":\x7b\"message\":\"rate limited\",\"type\":\"rate_limit\"\x7d\x7d".toList,
                 none⟩ }

/-- An upstream that answers 502 with a body that is not JSON. -/
def badGateway : Client := fun _ =>
  .ok { StatusCode := 502, Body := ⟨"Bad Gateway".toList, none⟩ }

/-- An upstream that answers 500 with an error object whose `code` is a number. -/
def numericCode : Client := fun _ =>
  .ok { StatusCode := 500,
        Body := ⟨"\x7b\"error\":\x7b\"message\":\"boom\",\"code\":7\x7d\x7d".toList, none⟩ }

/-! ## Reading lines -/

theorem readLine_line (l rest : List Char) (hl : '\n' ∉ l) :
    readLine (l ++ '\n' :: rest) = some (l ++ ['\n'], rest) := by
  induction l with
  | nil => simp [readLine]
  | cons c cs ih =>
    have hc : c ≠ '\n' := fun h => hl (by simp [h])
    have hcs : '\n' ∉ cs := fun h => hl (by simp [h])
    simp [readLine, hc, ih hcs]

theorem readLine_none (d : List Char) (hd : '\n' ∉ d) : readLine d = none := by
  induction d with
  | nil => rfl
  | cons c cs ih =>
    have hc : c ≠ '\n' := fun h => hd (by simp [h])
    have hcs : '\n' ∉ cs := fun h => hd (by simp [h])
    simp [readLine, hc, ih hcs]

theorem readLine_length (d l rest : List Char) (h : readLine d = some (l, rest)) :
    rest.length < d.length := by
  induction d generalizing l with
  | nil => simp [readLine] at h
  | cons c cs ih =>
    by_cases hc : c = '\n'
    · simp [readLine, hc] at h
      simp [← h.2]
    · simp only [readLine, hc, if_false] at h
      cases hr : readLine cs with
      | none => simp [hr] at h
      | some p =>
        obtain ⟨l1, r1⟩ := p
        simp [hr] at h
        have := ih l1 (by rw [hr, h.2])
        simp
        omega

theorem ReadString_line (l rest : List Char) (f : Option (List Char)) (hl : '\n' ∉ l) :
    ReadString ⟨l ++ '\n' :: rest, f⟩ = ⟨l ++ ['\n'], none, ⟨rest, f⟩⟩ := by
  simp [ReadString, readLine_line l rest hl]

theorem ReadString_end (d : List Char) (f : Option (List Char)) (hd : '\n' ∉ d) :
    ReadString ⟨d, f⟩ = ⟨d, some (Reader.terminal ⟨d, f⟩), ⟨[], f⟩⟩ := by
  simp [ReadString, readLine_none d hd]

theorem ReadString_length_le (r : Reader) : (ReadString r).reader.data.length ≤ r.data.length := by
  unfold ReadString
  cases h : readLine r.data with
  | none => simp
  | some p =>
    obtain ⟨l, rest⟩ := p
    simpa using Nat.le_of_lt (readLine_length _ _ _ h)

theorem ReadString_length_lt (r : Reader) (h : (ReadString r).err = none) :
    (ReadString r).reader.data.length < r.data.length := by
  unfold ReadString at h ⊢
  cases hr : readLine r.data with
  | none => simp [hr] at h
  | some p =>
    obtain ⟨l, rest⟩ := p
    simpa using readLine_length _ _ _ hr

/-! ## The bound of `step` is enough -/

theorem abort_ne_next (st s : StreamState) (msg : List Char) : abort st msg ≠ .next s := by
  simp [abort]

theorem createdBlock_length (dec : Decoder) (line : List Char) (st s : StreamState)
    (h : createdBlock dec line st = .next s) : s.reader.data.length ≤ st.reader.data.length := by
  unfold createdBlock at h
  split at h
  · simp only at h
    split at h
    · exact absurd h (abort_ne_next _ _ _)
    · split at h
      · exact absurd h (abort_ne_next _ _ _)
      · injection h with h
        subst h
        exact ReadString_length_le _
  · injection h with h
    subst h
    exact Nat.le_refl _

theorem deltaBlock_length (dec : Decoder) (line : List Char) (st s : StreamState)
    (h : deltaBlock dec line st = .next s) : s.reader.data.length ≤ st.reader.data.length := by
  unfold deltaBlock at h
  split at h
  · simp only at h
    split at h
    · exact absurd h (abort_ne_next _ _ _)
    · split at h
      · split at h
        · exact absurd h (abort_ne_next _ _ _)
        · injection h with h
          subst h
          exact ReadString_length_le _
      · injection h with h
        subst h
        exact ReadString_length_le _
  · injection h with h
    subst h
    exact Nat.le_refl _

theorem terminalBlock_length (line : List Char) (st s : StreamState)
    (h : terminalBlock line st = .next s) : s.reader.data.length ≤ st.reader.data.length := by
  unfold terminalBlock at h
  split at h
  · simp at h
  · injection h with h
    subst h
    exact Nat.le_refl _

/-- The loop body after a line has been read: the three blocks in turn, then
the rest of the run `k`. -/
theorem loop_succ (dec : Decoder) (fuel : Nat) (st : StreamState) :
    loop dec (fuel + 1) st =
      match (ReadString st.reader).err with
      | some .eof => some (true, { st with reader := (ReadString st.reader).reader })
      | some (.other msg) =>
        some (false, { st with reader := (ReadString st.reader).reader,
                               out := st.out ++ [.json 500 (.text msg)] })
      | none =>
        match createdBlock dec (ReadString st.reader).line
            { st with reader := (ReadString st.reader).reader } with
        | .stop s => some (false, s)
        | .next s1 =>
          match deltaBlock dec (ReadString st.reader).line s1 with
          | .stop s => some (false, s)
          | .next s2 =>
            match terminalBlock (ReadString st.reader).line s2 with
            | .stop s => some (false, s)
            | .next s3 => loop dec fuel s3 := rfl

theorem loop_fuel (dec : Decoder) (n m : Nat) (st : StreamState)
    (hn : st.reader.data.length < n) (hm : st.reader.data.length < m) :
    loop dec n st = loop dec m st := by
  induction n generalizing m st with
  | zero => omega
  | succ n ih =>
    cases m with
    | zero => omega
    | succ m =>
      rw [loop_succ, loop_succ]
      cases he : (ReadString st.reader).err with
      | some e => cases e <;> rfl
      | none =>
        have hlt := ReadString_length_lt st.reader he
        simp only
        cases h1 : createdBlock dec (ReadString st.reader).line
            { st with reader := (ReadString st.reader).reader } with
        | stop s => rfl
        | next s1 =>
          have l1 := createdBlock_length _ _ _ _ h1
          simp only at l1 ⊢
          cases h2 : deltaBlock dec (ReadString st.reader).line s1 with
          | stop s => rfl
          | next s2 =>
            have l2 := deltaBlock_length _ _ _ _ h2
            simp only
            cases h3 : terminalBlock (ReadString st.reader).line s2 with
            | stop s => rfl
            | next s3 =>
              have l3 := terminalBlock_length _ _ _ h3
              simp only
              exact ih m s3 (by omega) (by omega)

theorem loop_isSome (dec : Decoder) (n : Nat) (st : StreamState)
    (hn : st.reader.data.length < n) : (loop dec n st).isSome = true := by
  induction n generalizing st with
  | zero => omega
  | succ n ih =>
    rw [loop_succ]
    cases he : (ReadString st.reader).err with
    | some e => cases e <;> rfl
    | none =>
      have hlt := ReadString_length_lt st.reader he
      simp only
      cases h1 : createdBlock dec (ReadString st.reader).line
          { st with reader := (ReadString st.reader).reader } with
      | stop s => rfl
      | next s1 =>
        have l1 := createdBlock_length _ _ _ _ h1
        simp only at l1 ⊢
        cases h2 : deltaBlock dec (ReadString st.reader).line s1 with
        | stop s => rfl
        | next s2 =>
          have l2 := deltaBlock_length _ _ _ _ h2
          simp only
          cases h3 : terminalBlock (ReadString st.reader).line s2 with
          | stop s => rfl
          | next s3 =>
            have l3 := terminalBlock_length _ _ _ h3
            simp only
            exact ih s3 (by omega)

/-- The step function returns: its bound is never reached. -/
theorem step_isSome (dec : Decoder) (st : StreamState) : (step dec st).isSome = true :=
  loop_isSome dec _ st (Nat.lt_succ_self _)

/-- The step function on a body that starts with a complete line. -/
theorem step_line (dec : Decoder) (l rest : List Char) (f : Option (List Char))
    (tid : List Char) (out : List Effect) (hl : '\n' ∉ l) :
    step dec ⟨⟨l ++ '\n' :: rest, f⟩, tid, out⟩ =
      match createdBlock dec (l ++ ['\n']) ⟨⟨rest, f⟩, tid, out⟩ with
      | .stop s => some (false, s)
      | .next s1 =>
        match deltaBlock dec (l ++ ['\n']) s1 with
        | .stop s => some (false, s)
        | .next s2 =>
          match terminalBlock (l ++ ['\n']) s2 with
          | .stop s => some (false, s)
          | .next s3 => step dec s3 := by
  unfold step
  rw [loop_succ]
  simp only [ReadString_line l rest f hl]
  cases h1 : createdBlock dec (l ++ ['\n']) ⟨⟨rest, f⟩, tid, out⟩ with
  | stop s => rfl
  | next s1 =>
    have l1 := createdBlock_length _ _ _ _ h1
    simp only at l1 ⊢
    cases h2 : deltaBlock dec (l ++ ['\n']) s1 with
    | stop s => rfl
    | next s2 =>
      have l2 := deltaBlock_length _ _ _ _ h2
      simp only
      cases h3 : terminalBlock (l ++ ['\n']) s2 with
      | stop s => rfl
      | next s3 =>
        have l3 := terminalBlock_length _ _ _ h3
        simp only
        apply loop_fuel
        · simp only [List.length_append, List.length_cons]
          omega
        · omega

/-- The step function at a clean end-of-stream: `break`, then `return true`. -/
theorem step_eof (dec : Decoder) (d : List Char) (tid : List Char) (out : List Effect)
    (hd : '\n' ∉ d) :
    step dec ⟨⟨d, none⟩, tid, out⟩ = some (true, ⟨⟨[], none⟩, tid, out⟩) := by
  unfold step
  rw [loop_succ]
  simp only [ReadString_end d none hd]
  rfl

/-- The step function when the body fails before a newline. -/
theorem step_fail (dec : Decoder) (d msg : List Char) (tid : List Char) (out : List Effect)
    (hd : '\n' ∉ d) :
    step dec ⟨⟨d, some msg⟩, tid, out⟩ =
      some (false, ⟨⟨[], some msg⟩, tid, out ++ [.json 500 (.text msg)]⟩) := by
  unfold step
  rw [loop_succ]
  simp only [ReadString_end d (some msg) hd]
  rfl

/-! ## The blocks on given lines -/

theorem createdBlock_skip (dec : Decoder) (line : List Char) (st : StreamState)
    (h : HasPrefix line evCreated = false) : createdBlock dec line st = .next st := by
  simp [createdBlock, h]

theorem deltaBlock_skip (dec : Decoder) (line : List Char) (st : StreamState)
    (h : HasPrefix line evDelta = false) : deltaBlock dec line st = .next st := by
  simp [deltaBlock, h]

theorem terminalBlock_skip (line : List Char) (st : StreamState)
    (h1 : HasPrefix line evCompleted = false) (h2 : HasPrefix line evDone = false) :
    terminalBlock line st = .next st := by
  simp [terminalBlock, h1, h2]

theorem HasPrefix_append (p rest : List Char) : HasPrefix (p ++ rest) p = true := by
  simp [HasPrefix]

theorem TrimPrefix_append (p rest : List Char) : TrimPrefix (p ++ rest) p = rest := by
  simp [TrimPrefix, HasPrefix_append]

theorem unlines_cons_append (l : List Char) (ls : List (List Char)) (e : List Char) :
    unlines (l :: ls) ++ e = l ++ '\n' :: (unlines ls ++ e) := by
  simp [unlines]

theorem unlines_append (ls ms : List (List Char)) :
    unlines (ls ++ ms) = unlines ls ++ unlines ms := by
  induction ls with
  | nil => rfl
  | cons l ls ih => simp [unlines, ih]

theorem unlines_nil_append (e : List Char) : unlines [] ++ e = e := rfl

/-- An event line whose name starts with none of the four names has none of
the four tested beginnings. -/
theorem HasPrefix_eventTag (name k : List Char) :
    HasPrefix (eventTag ++ name ++ ['\n']) (eventTag ++ k) = HasPrefix (name ++ ['\n']) k := by
  simp [HasPrefix, eventTag]

theorem HasPrefix_newline (name k : List Char) (hk : '\n' ∉ k)
    (h : HasPrefix name k = false) : HasPrefix (name ++ ['\n']) k = false := by
  cases hp : HasPrefix (name ++ ['\n']) k with
  | false => rfl
  | true =>
    exfalso
    simp only [HasPrefix, List.isPrefixOf_iff_prefix] at hp
    rcases List.prefix_concat_iff.mp (by simpa using hp) with h1 | h1
    · exact hk (by simp [h1])
    · have : HasPrefix name k = true := by simpa [HasPrefix] using h1
      rw [h] at this
      exact Bool.noConfusion this

/-! ## Lines read on their own and lines read with more behind them -/

theorem createdBlock_append (dec : Decoder) (line : List Char) (ls : List (List Char))
    (tid : List Char) (out : List Effect) (s1 : StreamState)
    (hls : ∀ l ∈ ls, '\n' ∉ l)
    (h : createdBlock dec line ⟨⟨unlines ls, none⟩, tid, out⟩ = .next s1) :
    ∃ ls1, ls1.length ≤ ls.length ∧ (∀ l ∈ ls1, '\n' ∉ l) ∧ s1.reader = ⟨unlines ls1, none⟩ ∧
      ∀ e f, createdBlock dec line ⟨⟨unlines ls ++ e, f⟩, tid, out⟩ =
        .next ⟨⟨unlines ls1 ++ e, f⟩, s1.threadID, s1.out⟩ := by
  cases hp : HasPrefix line evCreated with
  | false =>
    rw [createdBlock_skip _ _ _ hp] at h
    injection h with h
    subst h
    exact ⟨ls, Nat.le_refl _, hls, rfl, fun e f => createdBlock_skip _ _ _ hp⟩
  | true =>
    cases ls with
    | nil =>
      simp [createdBlock, hp, unlines, ReadString, readLine, abort] at h
    | cons l ls1 =>
      have hl : '\n' ∉ l := hls l (by simp)
      simp only [createdBlock, hp, if_true, unlines, ReadString_line l _ _ hl] at h
      refine ⟨ls1, by simp, fun x hx => hls x (by simp [hx]), ?_, ?_⟩
      · split at h
        · exact absurd h (abort_ne_next _ _ _)
        · injection h with h
          subst h
          rfl
      · intro e f
        simp only [createdBlock, hp, if_true, unlines_cons_append, ReadString_line l _ _ hl]
        split at h
        · exact absurd h (abort_ne_next _ _ _)
        · rename_i id hid
          injection h with h
          subst h
          simp only [hid]

theorem deltaBlock_append (dec : Decoder) (line : List Char) (ls : List (List Char))
    (tid : List Char) (out : List Effect) (s1 : StreamState)
    (hls : ∀ l ∈ ls, '\n' ∉ l)
    (h : deltaBlock dec line ⟨⟨unlines ls, none⟩, tid, out⟩ = .next s1) :
    ∃ ls1, ls1.length ≤ ls.length ∧ (∀ l ∈ ls1, '\n' ∉ l) ∧ s1.reader = ⟨unlines ls1, none⟩ ∧
      ∀ e f, deltaBlock dec line ⟨⟨unlines ls ++ e, f⟩, tid, out⟩ =
        .next ⟨⟨unlines ls1 ++ e, f⟩, s1.threadID, s1.out⟩ := by
  cases hp : HasPrefix line evDelta with
  | false =>
    rw [deltaBlock_skip _ _ _ hp] at h
    injection h with h
    subst h
    exact ⟨ls, Nat.le_refl _, hls, rfl, fun e f => deltaBlock_skip _ _ _ hp⟩
  | true =>
    cases ls with
    | nil =>
      simp [deltaBlock, hp, unlines, ReadString, readLine, abort] at h
    | cons l ls1 =>
      have hl : '\n' ∉ l := hls l (by simp)
      simp only [deltaBlock, hp, if_true, unlines, ReadString_line l _ _ hl] at h
      refine ⟨ls1, by simp, fun x hx => hls x (by simp [hx]), ?_, ?_⟩
      · split at h
        · split at h
          · exact absurd h (abort_ne_next _ _ _)
          · injection h with h
            subst h
            rfl
        · injection h with h
          subst h
          rfl
      · intro e f
        simp only [deltaBlock, hp, if_true, unlines_cons_append, ReadString_line l _ _ hl]
        split at h
        · rename_i hd
          simp only [hd, if_true]
          split at h
          · exact absurd h (abort_ne_next _ _ _)
          · rename_i content hc
            injection h with h
            subst h
            simp only [hc]
        · rename_i hd
          simp only [hd]
          injection h with h
          subst h
          rfl

theorem terminalBlock_append (line : List Char) (s s1 : StreamState)
    (h : terminalBlock line s = .next s1) :
    s1 = s ∧ ∀ r, terminalBlock line { s with reader := r } = .next { s with reader := r } := by
  unfold terminalBlock at h ⊢
  split at h
  · simp at h
  · rename_i hc
    injection h with h
    subst h
    refine ⟨rfl, fun r => ?_⟩
    simp only [hc]
    rfl

/-- When the step function reads a stream of complete lines through to a clean
end-of-stream, it reads the same lines in the same way when more bytes follow
them, and then carries on with those bytes. -/
theorem step_append (dec : Decoder) (e : List Char) (f : Option (List Char))
    (st1 : StreamState) (n : Nat) :
    ∀ (ls : List (List Char)) (tid : List Char) (out : List Effect),
      ls.length ≤ n → (∀ l ∈ ls, '\n' ∉ l) →
      step dec ⟨⟨unlines ls, none⟩, tid, out⟩ = some (true, st1) →
      step dec ⟨⟨unlines ls ++ e, f⟩, tid, out⟩ = step dec ⟨⟨e, f⟩, st1.threadID, st1.out⟩ := by
  induction n with
  | zero =>
    intro ls tid out hlen _ h
    have : ls = [] := List.length_eq_zero.mp (Nat.le_zero.mp hlen)
    subst this
    rw [show unlines [] = [] from rfl, step_eof dec [] tid out (by simp)] at h
    injection h with h
    injection h with _ h
    subst h
    rfl
  | succ n ih =>
    intro ls tid out hlen hls h
    cases ls with
    | nil => exact (ih [] tid out (Nat.zero_le _) hls h)
    | cons l ls0 =>
      have hl : '\n' ∉ l := hls l (by simp)
      have hls0 : ∀ x ∈ ls0, '\n' ∉ x := fun x hx => hls x (by simp [hx])
      have hlen0 : ls0.length ≤ n := by simpa using hlen
      rw [show unlines (l :: ls0) = l ++ '\n' :: unlines ls0 from rfl, step_line dec l _ _ _ _ hl] at h
      rw [unlines_cons_append, step_line dec l _ _ _ _ hl]
      cases h1 : createdBlock dec (l ++ ['\n']) ⟨⟨unlines ls0, none⟩, tid, out⟩ with
      | stop s => simp [h1] at h
      | next s1 =>
        obtain ⟨ls1, len1, hls1, hr1, ha1⟩ := createdBlock_append dec _ ls0 tid out s1 hls0 h1
        rw [h1] at h
        simp only at h
        rw [ha1 e f]
        simp only
        obtain ⟨r1, t1, o1⟩ := s1
        simp only at hr1
        subst hr1
        cases h2 : deltaBlock dec (l ++ ['\n']) ⟨⟨unlines ls1, none⟩, t1, o1⟩ with
        | stop s => simp [h2] at h
        | next s2 =>
          obtain ⟨ls2, len2, hls2, hr2, ha2⟩ := deltaBlock_append dec _ ls1 t1 o1 s2 hls1 h2
          rw [h2] at h
          simp only at h
          rw [ha2 e f]
          simp only
          obtain ⟨r2, t2, o2⟩ := s2
          simp only at hr2
          subst hr2
          cases h3 : terminalBlock (l ++ ['\n']) ⟨⟨unlines ls2, none⟩, t2, o2⟩ with
          | stop s => simp [h3] at h
          | next s3 =>
            obtain ⟨hs3, ha3⟩ := terminalBlock_append _ _ _ h3
            rw [h3] at h
            simp only at h
            subst hs3
            have := ha3 ⟨unlines ls2 ++ e, f⟩
            simp only at this
            rw [this]
            simp only
            exact ih ls2 t2 o2 (by omega) hls2 h

/-! ## Well-framed events -/

theorem step_created (dec : Decoder) (payload id rest : List Char) (f : Option (List Char))
    (tid : List Char) (out : List Effect) (hp : '\n' ∉ payload)
    (hd : dec.runCreated (TrimSpace (payload ++ ['\n'])) = .ok id) :
    step dec ⟨⟨evCreated ++ '\n' :: ((dataTag ++ payload) ++ '\n' :: rest), f⟩, tid, out⟩ =
      step dec ⟨⟨rest, f⟩, id, out ++ [.fprintf threadIDFormat id, .flush]⟩ := by
  have hdl : '\n' ∉ dataTag ++ payload := by
    intro h
    rcases List.mem_append.mp h with h | h
    · revert h
      decide
    · exact hp h
  rw [step_line dec evCreated _ _ _ _ (by decide)]
  have h1 : createdBlock dec (evCreated ++ ['\n'])
      ⟨⟨(dataTag ++ payload) ++ '\n' :: rest, f⟩, tid, out⟩ =
      .next ⟨⟨rest, f⟩, id, out ++ [.fprintf threadIDFormat id, .flush]⟩ := by
    simp only [createdBlock, HasPrefix_append, if_true, ReadString_line _ rest f hdl]
    simp only [List.append_assoc, TrimPrefix_append, hd]
  rw [h1]
  simp only
  rw [deltaBlock_skip dec _ _ (by decide)]
  simp only
  rw [terminalBlock_skip _ _ (by decide) (by decide)]

theorem step_delta (dec : Decoder) (payload rest : List Char) (content : List Content)
    (f : Option (List Char)) (tid : List Char) (out : List Effect) (hp : '\n' ∉ payload)
    (hd : dec.delta (TrimSpace (payload ++ ['\n'])) = .ok content) :
    step dec ⟨⟨evDelta ++ '\n' :: ((dataTag ++ payload) ++ '\n' :: rest), f⟩, tid, out⟩ =
      step dec ⟨⟨rest, f⟩, tid, out ++ writeContents content⟩ := by
  have hdl : '\n' ∉ dataTag ++ payload := by
    intro h
    rcases List.mem_append.mp h with h | h
    · revert h
      decide
    · exact hp h
  rw [step_line dec evDelta _ _ _ _ (by decide)]
  rw [createdBlock_skip dec _ _ (by decide)]
  simp only
  have h1 : deltaBlock dec (evDelta ++ ['\n'])
      ⟨⟨(dataTag ++ payload) ++ '\n' :: rest, f⟩, tid, out⟩ =
      .next ⟨⟨rest, f⟩, tid, out ++ writeContents content⟩ := by
    simp only [deltaBlock, HasPrefix_append, if_true, ReadString_line _ rest f hdl]
    simp only [List.append_assoc, HasPrefix_append, if_true, TrimPrefix_append, hd]
  rw [h1]
  simp only
  rw [terminalBlock_skip _ _ (by decide) (by decide)]

/-- The step function reads a sequence of decodable events through, writing
the effects of each in turn. -/
theorem step_events (dec : Decoder) (rest : List Char) (f : Option (List Char)) :
    ∀ (evs : List Event) (tid : List Char) (out : List Effect),
      (∀ e ∈ evs, e.Decoded dec) →
      step dec ⟨⟨unlines (eventLines evs) ++ rest, f⟩, tid, out⟩ =
        step dec ⟨⟨rest, f⟩, lastThreadID tid evs, out ++ eventEffects evs⟩ := by
  intro evs
  induction evs with
  | nil =>
    intro tid out _
    simp [eventLines, unlines, lastThreadID, eventEffects]
  | cons e evs ih =>
    intro tid out h
    have he := h e (by simp)
    have hevs : ∀ x ∈ evs, x.Decoded dec := fun x hx => h x (by simp [hx])
    cases e with
    | created payload id =>
      obtain ⟨hp, hd⟩ := he
      have := step_created dec payload id (unlines (eventLines evs) ++ rest) f tid out hp hd
      simp only [eventLines, unlines, lastThreadID, eventEffects, List.append_assoc,
        List.cons_append] at this ⊢
      rw [this, ih id _ hevs]
      simp
    | delta payload content =>
      obtain ⟨hp, hd⟩ := he
      have := step_delta dec payload (unlines (eventLines evs) ++ rest) content f tid out hp hd
      simp only [eventLines, unlines, lastThreadID, eventEffects, List.append_assoc,
        List.cons_append] at this ⊢
      rw [this, ih tid _ hevs]
      simp

/-- Once the body is exhausted, every further invocation of the step function
returns `true` again, and the driver goes on invoking it. -/
theorem Stream_exhausted (dec : Decoder) (tid : List Char) :
    ∀ (n : Nat) (out : List Effect),
      Stream dec n ⟨⟨[], none⟩, tid, out⟩ =
        some (false, ⟨⟨[], none⟩, tid, out ++ List.replicate n .flush⟩) := by
  intro n
  induction n with
  | zero => intro out; simp [Stream]
  | succ n ih =>
    intro out
    simp only [Stream, step_eof dec [] tid out (by simp), if_true]
    rw [ih]
    simp [List.replicate_succ]

/-! ## Effects and chunks -/

theorem Sprintf_textFormat (v : List Char) : Sprintf textFormat v = v := by
  simp [Sprintf, textFormat]

theorem writeContents_eq (content : List Content) :
    writeContents content = flushedWrites (textValues content) := by
  induction content with
  | nil => rfl
  | cons c cs ih =>
    simp only [textValues] at ih
    by_cases h : c.Type_ = ['t', 'e', 'x', 't']
    · simp [writeContents, textValues, flushedWrites, h, ih]
    · simp [writeContents, textValues, h, ih]

theorem flushedWrites_append (vs ws : List (List Char)) :
    flushedWrites (vs ++ ws) = flushedWrites vs ++ flushedWrites ws := by
  induction vs with
  | nil => rfl
  | cons v vs ih => simp [flushedWrites, ih]

theorem chunks_flushedWrites (vs : List (List Char)) : chunks (flushedWrites vs) = vs := by
  induction vs with
  | nil => rfl
  | cons v vs ih =>
    simp only [chunks] at ih
    simp [flushedWrites, chunks, List.filterMap_cons, Effect.chunk, Sprintf_textFormat, ih]

theorem chunks_append (a b : List Effect) : chunks (a ++ b) = chunks a ++ chunks b := by
  simp [chunks]

theorem chunks_replicate_flush (n : Nat) : chunks (List.replicate n .flush) = [] := by
  induction n with
  | zero => rfl
  | succ n ih =>
    simp only [chunks] at ih
    simp [chunks, List.replicate_succ, List.filterMap_cons, Effect.chunk, ih]

theorem eventEffects_deltaEvents (evs : List (List Char × List Content)) :
    eventEffects (deltaEvents evs) = flushedWrites (deltaTexts evs) := by
  induction evs with
  | nil => rfl
  | cons e es ih =>
    simp only [deltaEvents, List.map_cons] at ih ⊢
    simp [eventEffects, deltaTexts, flushedWrites_append, writeContents_eq, ih]

theorem announcements_append (a b : List Effect) :
    announcements (a ++ b) = announcements a ++ announcements b := by
  simp [announcements]

theorem announcements_writeContents (content : List Content) :
    announcements (writeContents content) = [] := by
  induction content with
  | nil => rfl
  | cons c cs ih =>
    have hne : textFormat ≠ threadIDFormat := by decide
    by_cases h : c.Type_ = ['t', 'e', 'x', 't']
    · simp only [announcements] at ih
      simp [writeContents, h, announcements, List.filter_cons, hne, ih]
    · simpa [writeContents, h] using ih

theorem announcements_replicate_flush (n : Nat) :
    announcements (List.replicate n .flush) = [] := by
  induction n with
  | zero => rfl
  | succ n ih =>
    simp only [announcements] at ih
    simp [announcements, List.replicate_succ, List.filter_cons, ih]

theorem announcements_eventEffects (evs : List Event) :
    announcements (eventEffects evs) =
      (createdIDs evs).map fun id => Effect.fprintf threadIDFormat id := by
  induction evs with
  | nil => rfl
  | cons e es ih =>
    cases e with
    | created payload id =>
      simp only [announcements] at ih
      simp [eventEffects, createdIDs, announcements, List.filter_cons, ih]
    | delta payload content =>
      simp [eventEffects, createdIDs, announcements_append, announcements_writeContents, ih]

/-! ## The driver -/

theorem Stream_succ (dec : Decoder) (n : Nat) (st : StreamState) :
    Stream dec (n + 1) st =
      match step dec st with
      | none => none
      | some (keepOpen, st1) =>
        if keepOpen then Stream dec n { st1 with out := st1.out ++ [.flush] }
        else some (true, { st1 with out := st1.out ++ [.flush] }) := rfl

theorem Stream_isSome (dec : Decoder) (n : Nat) (st : StreamState) :
    (Stream dec n st).isSome = true := by
  induction n generalizing st with
  | zero => rfl
  | succ n ih =>
    rw [Stream_succ]
    have hs := step_isSome dec st
    cases h : step dec st with
    | none => simp [h] at hs
    | some r =>
      obtain ⟨keepOpen, st1⟩ := r
      cases keepOpen with
      | true => simpa using ih _
      | false => rfl

/-- A stream of decodable events, read from any state: the driver is still
invoking the step function after any number of invocations, and the client
connection holds the effects of the events followed by the flushes of the
driver. -/
theorem Stream_events (dec : Decoder) (evs : List Event) (tid : List Char) (out : List Effect)
    (n : Nat) (h : ∀ e ∈ evs, e.Decoded dec) :
    Stream dec (n + 1) ⟨⟨unlines (eventLines evs), none⟩, tid, out⟩ =
      some (false, ⟨⟨[], none⟩, lastThreadID tid evs,
        out ++ eventEffects evs ++ List.replicate (n + 1) .flush⟩) := by
  have hs := step_events dec [] none evs tid out h
  rw [List.append_nil, step_eof dec [] _ _ (by simp)] at hs
  rw [Stream_succ, hs]
  simp only [if_true]
  rw [Stream_exhausted]
  simp [List.replicate_succ]

theorem loop_true_reader (dec : Decoder) (n : Nat) (st st1 : StreamState)
    (h : loop dec n st = some (true, st1)) : st1.reader = ⟨[], none⟩ := by
  induction n generalizing st with
  | zero => simp [loop] at h
  | succ n ih =>
    rw [loop_succ] at h
    cases he : (ReadString st.reader).err with
    | some e =>
      rw [he] at h
      cases e with
      | eof =>
        simp only at h
        injection h with h
        injection h with _ h
        subst h
        simp only
        unfold ReadString at he ⊢
        cases hr : readLine st.reader.data with
        | some p => simp [hr] at he
        | none =>
          simp only [hr] at he ⊢
          cases hf : st.reader.fail with
          | none => simp [hf]
          | some msg => simp [Reader.terminal, hf] at he
      | other msg => simp at h
    | none =>
      rw [he] at h
      simp only at h
      cases h1 : createdBlock dec (ReadString st.reader).line
          { st with reader := (ReadString st.reader).reader } with
      | stop s => simp [h1] at h
      | next s1 =>
        rw [h1] at h
        simp only at h
        cases h2 : deltaBlock dec (ReadString st.reader).line s1 with
        | stop s => simp [h2] at h
        | next s2 =>
          rw [h2] at h
          simp only at h
          cases h3 : terminalBlock (ReadString st.reader).line s2 with
          | stop s => simp [h3] at h
          | next s3 =>
            rw [h3] at h
            simp only at h
            exact ih s3 h

/-! ## The claims about the stream -/

/-- C1: for an upstream stream that consists of `thread.message.delta` events
only, each followed by a `data: ` line whose text the delta decoder accepts, the
chunks written to the client are exactly the `text.value` strings of the
fragments of type `text`, in event order and then fragment order, verbatim;
every one is written by its own `Fprintf`, followed by its own flush; fragments
of other types write nothing.  This holds however often the driver has invoked
the step function. -/
theorem delta_stream_chunks (dec : Decoder) (evs : List (List Char × List Content)) (n : Nat)
    (h : ∀ e ∈ evs, '\n' ∉ e.1 ∧ dec.delta (TrimSpace (e.1 ++ ['\n'])) = .ok e.2) :
    ∃ st, Stream dec (n + 1) ⟨⟨unlines (eventLines (deltaEvents evs)), none⟩, [], []⟩ =
        some (false, st) ∧
      st.out = flushedWrites (deltaTexts evs) ++ List.replicate (n + 1) .flush ∧
      chunks st.out = deltaTexts evs := by
  have hd : ∀ e ∈ deltaEvents evs, e.Decoded dec := by
    intro e he
    simp only [deltaEvents, List.mem_map] at he
    obtain ⟨p, hp, rfl⟩ := he
    exact h p hp
  refine ⟨_, Stream_events dec (deltaEvents evs) [] [] n hd, ?_, ?_⟩
  · simp [eventEffects_deltaEvents]
  · simp only [List.nil_append, eventEffects_deltaEvents, chunks_append, chunks_flushedWrites,
      chunks_replicate_flush, List.append_nil]

set_option maxRecDepth 100000 in
theorem delta_stream_chunks_hello :
    (∀ e ∈ helloDeltas, '\n' ∉ e.1 ∧ goJson.delta (TrimSpace (e.1 ++ ['\n'])) = .ok e.2) ∧
    deltaTexts helloDeltas = ["Hel".toList, "lo".toList] ∧
    ∃ st, Stream goJson 1 ⟨⟨unlines (eventLines (deltaEvents helloDeltas)), none⟩, [], []⟩ =
        some (false, st) ∧
      st.out = flushedWrites (deltaTexts helloDeltas) ++ List.replicate 1 .flush ∧
      chunks st.out = deltaTexts helloDeltas :=
  ⟨by decide, by decide, delta_stream_chunks goJson helloDeltas 0 (by decide)⟩

/-- For a stream of decodable `thread.run.created` and `thread.message.delta`
events, the relay writes exactly one session-identifier announcement for every
`thread.run.created` event, in order. -/
theorem announcement_per_created_event (dec : Decoder) (evs : List Event) (n : Nat)
    (h : ∀ e ∈ evs, e.Decoded dec) :
    ∃ st, Stream dec (n + 1) ⟨⟨unlines (eventLines evs), none⟩, [], []⟩ = some (false, st) ∧
      announcements st.out = (createdIDs evs).map (fun id => Effect.fprintf threadIDFormat id) ∧
      (announcements st.out).length = (createdIDs evs).length := by
  refine ⟨_, Stream_events dec evs [] [] n h, ?_⟩
  have : announcements ([] ++ eventEffects evs ++ List.replicate (n + 1) Effect.flush) =
      (createdIDs evs).map (fun id => Effect.fprintf threadIDFormat id) := by
    simp only [List.nil_append, announcements_append, announcements_eventEffects,
      announcements_replicate_flush, List.append_nil]
  exact ⟨this, by rw [this, List.length_map]⟩

set_option maxRecDepth 100000 in
theorem announcement_per_created_event_two :
    ∃ st, Stream goJson 1 ⟨⟨unlines (eventLines twoCreated), none⟩, [], []⟩ = some (false, st) ∧
      announcements st.out =
        (createdIDs twoCreated).map (fun id => Effect.fprintf threadIDFormat id) ∧
      (announcements st.out).length = (createdIDs twoCreated).length :=
  announcement_per_created_event goJson twoCreated 0 (by
    intro e he
    simp only [twoCreated, List.mem_cons, List.mem_singleton, List.not_mem_nil, or_false] at he
    rcases he with rfl | rfl
    · exact ⟨by decide, by decide⟩
    · exact ⟨by decide, by decide⟩)

set_option maxRecDepth 100000 in
/-- C8 fails as stated: on a stream with two `thread.run.created` events the
relay writes two announcements in one call. -/
theorem announcement_written_twice :
    (Stream goJson 1 ⟨⟨unlines (eventLines twoCreated), none⟩, [], []⟩).map
        (fun r => announcements r.2.out) =
      some [.fprintf threadIDFormat "t1".toList, .fprintf threadIDFormat "t2".toList] := by
  decide

/-! ## Announcements and `thread.run.created` event lines, for every stream -/

theorem readLine_split (d l rest : List Char) (h : readLine d = some (l, rest)) :
    ∃ a, l = a ++ ['\n'] ∧ d = a ++ '\n' :: rest := by
  induction d generalizing l with
  | nil => simp [readLine] at h
  | cons c cs ih =>
    by_cases hc : c = '\n'
    · simp [readLine, hc] at h
      exact ⟨[], by simp [← h.1], by simp [hc, h.2]⟩
    · simp only [readLine, hc, if_false] at h
      cases hr : readLine cs with
      | none => simp [hr] at h
      | some p =>
        obtain ⟨l1, r1⟩ := p
        simp [hr] at h
        obtain ⟨a, ha1, ha2⟩ := ih l1 (by rw [hr, h.2])
        exact ⟨c :: a, by simp [← h.1, ha1], by simp [ha2]⟩

theorem createdAfterNewline_line (a rest : List Char) :
    createdLines rest ≤ createdAfterNewline (a ++ '\n' :: rest) := by
  induction a with
  | nil => simp [createdAfterNewline, createdLines]
  | cons c cs ih =>
    show createdLines rest ≤
      (if c = '\n' ∧ HasPrefix (cs ++ '\n' :: rest) evCreated = true then 1 else 0) +
        createdAfterNewline (cs ++ '\n' :: rest)
    exact Nat.le_trans ih (Nat.le_add_left _ _)

theorem HasPrefix_of_line (a rest p : List Char) (h : HasPrefix (a ++ ['\n']) p = true) :
    HasPrefix (a ++ '\n' :: rest) p = true := by
  simp only [HasPrefix, List.isPrefixOf_iff_prefix] at h ⊢
  have : a ++ '\n' :: rest = (a ++ ['\n']) ++ rest := by simp
  rw [this]
  exact h.trans (List.prefix_append _ _)

/-- Reading a line leaves at most the event lines that were there, less the
line read when it is one. -/
theorem createdLines_readLine (d l rest : List Char) (h : readLine d = some (l, rest)) :
    createdLines rest + (if HasPrefix l evCreated = true then 1 else 0) ≤ createdLines d := by
  obtain ⟨a, rfl, rfl⟩ := readLine_split d l rest h
  have h1 := createdAfterNewline_line a rest
  by_cases hp : HasPrefix (a ++ ['\n']) evCreated = true
  · have hp2 := HasPrefix_of_line a rest evCreated hp
    simp only [hp, if_true]
    rw [show createdLines (a ++ '\n' :: rest) = 1 + createdAfterNewline (a ++ '\n' :: rest) by
      simp [createdLines, hp2]]
    omega
  · simp only [hp]
    have : createdAfterNewline (a ++ '\n' :: rest) ≤ createdLines (a ++ '\n' :: rest) := by
      simp [createdLines]
    simp only [Bool.false_eq_true, if_false, Nat.add_zero]
    omega

theorem createdLines_nil : createdLines [] = 0 := by decide

theorem createdLines_ReadString (r : Reader) :
    createdLines (ReadString r).reader.data +
      (if (ReadString r).err = none ∧ HasPrefix (ReadString r).line evCreated = true
        then 1 else 0) ≤ createdLines r.data := by
  unfold ReadString
  cases h : readLine r.data with
  | none => simp [createdLines_nil]
  | some p =>
    obtain ⟨l, rest⟩ := p
    simpa using createdLines_readLine _ _ _ h

theorem createdLines_ReadString_le (r : Reader) :
    createdLines (ReadString r).reader.data ≤ createdLines r.data := by
  have := createdLines_ReadString r
  omega

theorem announcements_length_append (a b : List Effect) :
    (announcements (a ++ b)).length = (announcements a).length + (announcements b).length := by
  rw [announcements_append, List.length_append]

theorem announcements_json (status : Nat) (body : ErrBody) :
    announcements [.json status body] = [] := rfl

theorem announcements_flush : announcements [.flush] = [] := rfl

theorem announcements_announce (id : List Char) :
    (announcements [.fprintf threadIDFormat id, .flush]).length = 1 := by
  simp [announcements]

/-- The `thread.run.created` block writes an announcement only when the line it
was entered for begins with `event: thread.run.created`. -/
theorem createdBlock_announcements (dec : Decoder) (line : List Char) (st : StreamState) :
    (announcements (createdBlock dec line st).state.out).length +
        createdLines (createdBlock dec line st).state.reader.data ≤
      (announcements st.out).length + createdLines st.reader.data +
        (if HasPrefix line evCreated = true then 1 else 0) := by
  have hr := createdLines_ReadString_le st.reader
  unfold createdBlock
  by_cases hp : HasPrefix line evCreated = true
  · simp only [hp, if_true]
    cases he : (ReadString st.reader).err with
    | some err =>
      simp only [abort, Flow.state, announcements_length_append, announcements_json,
        List.length_nil]
      omega
    | none =>
      simp only
      cases hd : dec.runCreated (TrimSpace (TrimPrefix (ReadString st.reader).line dataTag)) with
      | error e =>
        simp only [abort, Flow.state, announcements_length_append, announcements_json,
          List.length_nil]
        omega
      | ok id =>
        simp only [Flow.state, announcements_length_append, announcements_announce]
        omega
  · simp only [hp, Flow.state]
    simp

theorem deltaBlock_announcements (dec : Decoder) (line : List Char) (st : StreamState) :
    (announcements (deltaBlock dec line st).state.out).length +
        createdLines (deltaBlock dec line st).state.reader.data ≤
      (announcements st.out).length + createdLines st.reader.data := by
  have hr := createdLines_ReadString_le st.reader
  unfold deltaBlock
  by_cases hp : HasPrefix line evDelta = true
  · simp only [hp, if_true]
    cases he : (ReadString st.reader).err with
    | some err =>
      simp only [abort, Flow.state, announcements_length_append, announcements_json,
        List.length_nil]
      omega
    | none =>
      simp only
      by_cases hd : HasPrefix (ReadString st.reader).line dataTag = true
      · simp only [hd, if_true]
        cases hc : dec.delta (TrimSpace (TrimPrefix (ReadString st.reader).line dataTag)) with
        | error e =>
          simp only [abort, Flow.state, announcements_length_append, announcements_json,
            List.length_nil]
          omega
        | ok content =>
          simp only [Flow.state, announcements_length_append, announcements_writeContents,
            List.length_nil]
          omega
      · simp only [hd, Flow.state]
        simpa using hr
  · simp only [hp, Flow.state]
    simp

theorem terminalBlock_announcements (line : List Char) (st : StreamState) :
    (announcements (terminalBlock line st).state.out).length +
        createdLines (terminalBlock line st).state.reader.data ≤
      (announcements st.out).length + createdLines st.reader.data := by
  unfold terminalBlock
  split
  · simp only [Flow.state, announcements_length_append, announcements_flush, List.length_nil]
    omega
  · simp [Flow.state]

/-- One invocation of the step function writes at most one announcement for
every `thread.run.created` event line it has before it. -/
theorem loop_announcements (dec : Decoder) (n : Nat) (st : StreamState) (ret : Bool)
    (st1 : StreamState) (h : loop dec n st = some (ret, st1)) :
    (announcements st1.out).length + createdLines st1.reader.data ≤
      (announcements st.out).length + createdLines st.reader.data := by
  induction n generalizing st with
  | zero => simp [loop] at h
  | succ n ih =>
    rw [loop_succ] at h
    have hrd := createdLines_ReadString st.reader
    cases he : (ReadString st.reader).err with
    | some e =>
      rw [he] at h
      cases e with
      | eof =>
        simp only at h
        injection h with h
        injection h with _ h
        subst h
        simp only
        omega
      | other msg =>
        simp only at h
        injection h with h
        injection h with _ h
        subst h
        simp only [announcements_length_append, announcements_json, List.length_nil]
        omega
    | none =>
      rw [he] at h
      simp only at h
      simp only [he, true_and] at hrd
      have b1 := createdBlock_announcements dec (ReadString st.reader).line
        { st with reader := (ReadString st.reader).reader }
      simp only at b1
      cases h1 : createdBlock dec (ReadString st.reader).line
          { st with reader := (ReadString st.reader).reader } with
      | stop s =>
        rw [h1] at h b1
        simp only [Flow.state] at h b1
        injection h with h
        injection h with _ h
        subst h
        omega
      | next s1 =>
        rw [h1] at h b1
        simp only [Flow.state] at h b1
        have b2 := deltaBlock_announcements dec (ReadString st.reader).line s1
        cases h2 : deltaBlock dec (ReadString st.reader).line s1 with
        | stop s =>
          rw [h2] at h b2
          simp only [Flow.state] at h b2
          injection h with h
          injection h with _ h
          subst h
          omega
        | next s2 =>
          rw [h2] at h b2
          simp only [Flow.state] at h b2
          have b3 := terminalBlock_announcements (ReadString st.reader).line s2
          cases h3 : terminalBlock (ReadString st.reader).line s2 with
          | stop s =>
            rw [h3] at h b3
            simp only [Flow.state] at h b3
            injection h with h
            injection h with _ h
            subst h
            omega
          | next s3 =>
            rw [h3] at h b3
            simp only [Flow.state] at h b3
            have := ih s3 h
            omega

theorem Stream_announcements (dec : Decoder) (n : Nat) (st : StreamState) (ret : Bool)
    (st1 : StreamState) (h : Stream dec n st = some (ret, st1)) :
    (announcements st1.out).length + createdLines st1.reader.data ≤
      (announcements st.out).length + createdLines st.reader.data := by
  induction n generalizing st with
  | zero =>
    simp only [Stream] at h
    injection h with h
    injection h with _ h
    subst h
    exact Nat.le_refl _
  | succ n ih =>
    rw [Stream_succ] at h
    cases hs : step dec st with
    | none => simp [hs] at h
    | some r =>
      obtain ⟨keepOpen, s1⟩ := r
      have l1 := loop_announcements dec _ st keepOpen s1 hs
      rw [hs] at h
      simp only at h
      cases keepOpen with
      | true =>
        simp only [if_true] at h
        have := ih _ h
        simp only [announcements_length_append, announcements_flush, List.length_nil] at this
        omega
      | false =>
        simp only [Bool.false_eq_true, if_false] at h
        injection h with h
        injection h with _ h
        subst h
        simp only [announcements_length_append, announcements_flush, List.length_nil]
        omega

/-- C8, as the code has it: for every upstream stream, whatever it contains and
however it ends, and after any number of invocations of the step function, the
relay has written at most one session-identifier announcement for every
`thread.run.created` event line of the stream: the number of announcements
written during one relay call is at most the number of lines of the upstream
body that begin with `event: thread.run.created`. -/
theorem announcements_le_created_lines (dec : Decoder) (body : Reader) (n : Nat) :
    ∃ ret st, Stream dec n ⟨body, [], []⟩ = some (ret, st) ∧
      (announcements st.out).length ≤ createdLines body.data := by
  have hsome := Stream_isSome dec n ⟨body, [], []⟩
  cases h : Stream dec n ⟨body, [], []⟩ with
  | none => simp [h] at hsome
  | some r =>
    obtain ⟨ret, st⟩ := r
    refine ⟨ret, st, rfl, ?_⟩
    have := Stream_announcements dec n _ ret st h
    simp only [announcements, List.filter_nil, List.length_nil] at this
    simp only [announcements]
    omega

/-- A stream that begins with decodable events and goes on with any bytes: the
driver does what it does on those bytes, started with the effects of the
events already written. -/
theorem Stream_events_tail (dec : Decoder) (evs : List Event) (rest : List Char)
    (f : Option (List Char)) (tid : List Char) (out : List Effect) (n : Nat)
    (h : ∀ e ∈ evs, e.Decoded dec) :
    Stream dec (n + 1) ⟨⟨unlines (eventLines evs) ++ rest, f⟩, tid, out⟩ =
      Stream dec (n + 1) ⟨⟨rest, f⟩, lastThreadID tid evs, out ++ eventEffects evs⟩ := by
  rw [Stream_succ, Stream_succ, step_events dec rest f evs tid out h]

set_option maxRecDepth 100000 in
/-- The bound is reached: the stream with two `thread.run.created` events has
two such lines and gets two announcements. -/
theorem announcements_bound_reached :
    createdLines (unlines (eventLines twoCreated)) = 2 ∧
    (Stream goJson 1 ⟨⟨unlines (eventLines twoCreated), none⟩, [], []⟩).map
        (fun r => (announcements r.2.out).length) = some 2 := by
  decide

/-- The step function on a terminal line: the flush of line 185, then
`return false`, with the bytes after the line left unread. -/
theorem step_terminal (dec : Decoder) (t r post : List Char) (f : Option (List Char))
    (tid : List Char) (out : List Effect) (hr : '\n' ∉ r)
    (ht : t = evCompleted ++ r ∨ t = evDone ++ r) :
    step dec ⟨⟨t ++ '\n' :: post, f⟩, tid, out⟩ =
      some (false, ⟨⟨post, f⟩, tid, out ++ [.flush]⟩) := by
  have hcompleted : '\n' ∉ evCompleted := by decide
  have hdone : '\n' ∉ evDone := by decide
  rcases ht with rfl | rfl
  · have c1 : HasPrefix (evCompleted ++ r ++ ['\n']) evCreated = false := rfl
    have c2 : HasPrefix (evCompleted ++ r ++ ['\n']) evDelta = false := rfl
    rw [step_line dec _ _ _ _ _ (by simp [hcompleted, hr])]
    rw [createdBlock_skip dec _ _ c1]
    simp only
    rw [deltaBlock_skip dec _ _ c2]
    simp only
    simp [terminalBlock, List.append_assoc, HasPrefix_append]
  · have c1 : HasPrefix (evDone ++ r ++ ['\n']) evCreated = false := rfl
    have c2 : HasPrefix (evDone ++ r ++ ['\n']) evDelta = false := rfl
    rw [step_line dec _ _ _ _ _ (by simp [hdone, hr])]
    rw [createdBlock_skip dec _ _ c1]
    simp only
    rw [deltaBlock_skip dec _ _ c2]
    simp only
    simp [terminalBlock, List.append_assoc, HasPrefix_append]

/-- C3, as the code has it: when an `event: thread.run.completed` or
`event: done` line (a complete line, whatever follows the name on it) comes
after lines that the relay reads through on their own to a clean end-of-stream
(so none of them stops the relay and the terminal line is not consumed as the
data line of an event), the first invocation of the step function stops at that
line and the driver returns: the bytes after the line stay unread, no error is
written, and the client connection holds what the lines before produced,
followed by the two final flushes. -/
theorem terminal_event_stops (dec : Decoder) (ls : List (List Char)) (t r post : List Char)
    (f : Option (List Char)) (tid : List Char) (out : List Effect) (st1 : StreamState) (n : Nat)
    (hls : ∀ l ∈ ls, '\n' ∉ l) (hr : '\n' ∉ r)
    (ht : t = evCompleted ++ r ∨ t = evDone ++ r)
    (hpre : step dec ⟨⟨unlines ls, none⟩, tid, out⟩ = some (true, st1)) :
    Stream dec (n + 1) ⟨⟨unlines ls ++ unlines [t] ++ post, f⟩, tid, out⟩ =
      some (true, ⟨⟨post, f⟩, st1.threadID, st1.out ++ [.flush, .flush]⟩) := by
  have h1 := step_append dec (unlines [t] ++ post) f st1 ls.length ls tid out
    (Nat.le_refl _) hls hpre
  rw [show unlines [t] ++ post = t ++ '\n' :: post by simp [unlines],
    step_terminal dec t r post f _ _ hr ht] at h1
  rw [Stream_succ, List.append_assoc, show unlines [t] ++ post = t ++ '\n' :: post by
    simp [unlines], h1]
  simp

set_option maxRecDepth 100000 in
theorem terminal_event_stops_completed :
    step goJson ⟨⟨unlines hiLines, none⟩, [], []⟩ =
      some (true, ⟨⟨[], none⟩, [], [.fprintf textFormat "hi".toList, .flush]⟩) ∧
    Stream goJson 1 ⟨⟨unlines hiLines ++ unlines [evCompleted] ++ afterCompleted, none⟩, [], []⟩ =
      some (true, ⟨⟨afterCompleted, none⟩, [],
        [.fprintf textFormat "hi".toList, .flush] ++ [.flush, .flush]⟩) :=
  ⟨by decide,
   terminal_event_stops goJson hiLines evCompleted [] afterCompleted none [] []
    ⟨⟨[], none⟩, [], [.fprintf textFormat "hi".toList, .flush]⟩ 0
    (by decide) (by decide) (Or.inl (by decide)) (by decide)⟩

set_option maxRecDepth 100000 in
/-- C3 fails as stated: an `event: done` line that comes right after a
`thread.message.delta` event line is consumed as that event's data line; the
relay reads on, writes the text of the delta after it, and the driver has not
returned.  And when a `thread.run.created` event before the `event: done` line
has a data line that is not JSON, the relay answers 500 and returns before it
reads the `event: done` line. -/
theorem done_line_read_as_data :
    (Stream goJson 1 ⟨⟨doneAsData, none⟩, [], []⟩).map
        (fun r => (r.1, chunks r.2.out, r.2.reader.data)) =
      some (false, ["late".toList], []) ∧
    (Stream goJson 1 ⟨⟨brokenCreated, none⟩, [], []⟩).map
        (fun r => (r.1, r.2.out.map Effect.status, r.2.reader.data)) =
      some (true, [some 500, none], "event: done\n".toList) := by
  decide

/-- C7 fails on the code: when the first invocation of the step function
reaches the end of the stream (it returns `true` after the `break`), the driver
invokes it again, the exhausted body gives end-of-stream again, and so on: after
any number of invocations the driver has not returned, and nothing but its
flushes has been added. -/
theorem stream_never_returns (dec : Decoder) (st st1 : StreamState) (n : Nat)
    (h : step dec st = some (true, st1)) :
    Stream dec (n + 1) st =
      some (false, ⟨⟨[], none⟩, st1.threadID, st1.out ++ List.replicate (n + 1) .flush⟩) := by
  have hr := loop_true_reader dec _ st st1 h
  obtain ⟨r1, t1, o1⟩ := st1
  simp only at hr
  subst hr
  rw [Stream_succ, h]
  simp only [if_true]
  rw [Stream_exhausted]
  simp [List.replicate_succ]

set_option maxRecDepth 100000 in
theorem stream_never_returns_hi :
    step goJson ⟨⟨unlines hiLines, none⟩, [], []⟩ =
      some (true, ⟨⟨[], none⟩, [], [.fprintf textFormat "hi".toList, .flush]⟩) ∧
    Stream goJson 1000 ⟨⟨unlines hiLines, none⟩, [], []⟩ =
      some (false, ⟨⟨[], none⟩, [],
        [.fprintf textFormat "hi".toList, .flush] ++ List.replicate 1000 .flush⟩) :=
  ⟨by decide,
   stream_never_returns goJson ⟨⟨unlines hiLines, none⟩, [], []⟩
    ⟨⟨[], none⟩, [], [.fprintf textFormat "hi".toList, .flush]⟩ 999 (by decide)⟩

/-- The step function skips an event line whose name starts with none of the
four names, and the data line after it. -/
theorem step_unknown (dec : Decoder) (name payload post : List Char) (f : Option (List Char))
    (tid : List Char) (out : List Effect) (hname : '\n' ∉ name) (hpayload : '\n' ∉ payload)
    (hk : ∀ k ∈ eventNames, HasPrefix name k = false) :
    step dec ⟨⟨unlines [eventTag ++ name, dataTag ++ payload] ++ post, f⟩, tid, out⟩ =
      step dec ⟨⟨post, f⟩, tid, out⟩ := by
  have htag : '\n' ∉ eventTag := by decide
  have hdtag : '\n' ∉ dataTag := by decide
  have hev : ∀ k ∈ eventNames, HasPrefix (eventTag ++ name ++ ['\n']) (eventTag ++ k) = false := by
    intro k hkm
    rw [HasPrefix_eventTag]
    refine HasPrefix_newline name k ?_ (hk k hkm)
    revert k
    decide
  have h1 : HasPrefix (eventTag ++ name ++ ['\n']) evCreated = false :=
    hev "thread.run.created".toList (by decide)
  have h2 : HasPrefix (eventTag ++ name ++ ['\n']) evDelta = false :=
    hev "thread.message.delta".toList (by decide)
  have h3 : HasPrefix (eventTag ++ name ++ ['\n']) evCompleted = false :=
    hev "thread.run.completed".toList (by decide)
  have h4 : HasPrefix (eventTag ++ name ++ ['\n']) evDone = false :=
    hev "done".toList (by decide)
  rw [show unlines [eventTag ++ name, dataTag ++ payload] ++ post =
      (eventTag ++ name) ++ '\n' :: ((dataTag ++ payload) ++ '\n' :: post) by simp [unlines]]
  rw [step_line dec _ _ _ _ _ (by simp [htag, hname])]
  rw [createdBlock_skip dec _ _ h1]
  simp only
  rw [deltaBlock_skip dec _ _ h2]
  simp only
  rw [terminalBlock_skip _ _ h3 h4]
  simp only
  have d1 : HasPrefix (dataTag ++ payload ++ ['\n']) evCreated = false := rfl
  have d2 : HasPrefix (dataTag ++ payload ++ ['\n']) evDelta = false := rfl
  have d3 : HasPrefix (dataTag ++ payload ++ ['\n']) evCompleted = false := rfl
  have d4 : HasPrefix (dataTag ++ payload ++ ['\n']) evDone = false := rfl
  rw [step_line dec _ _ _ _ _ (by simp [hdtag, hpayload])]
  rw [createdBlock_skip dec _ _ d1]
  simp only
  rw [deltaBlock_skip dec _ _ d2]
  simp only
  rw [terminalBlock_skip _ _ d3 d4]

/-- C9, as the code has it: an event whose name starts with none of the four
names (the relay tests how a line begins, not the whole name) is ignored.  In a
stream where it follows lines that the relay reads through on their own to a
clean end-of-stream, the relay does exactly what it does on the stream without
the two lines of the event: same chunks, same errors, same return. -/
theorem unknown_event_ignored (dec : Decoder) (ls : List (List Char))
    (name payload post : List Char) (f : Option (List Char)) (tid : List Char)
    (out : List Effect) (st1 : StreamState) (n : Nat)
    (hls : ∀ l ∈ ls, '\n' ∉ l) (hname : '\n' ∉ name) (hpayload : '\n' ∉ payload)
    (hk : ∀ k ∈ eventNames, HasPrefix name k = false)
    (hpre : step dec ⟨⟨unlines ls, none⟩, tid, out⟩ = some (true, st1)) :
    Stream dec (n + 1)
        ⟨⟨unlines ls ++ unlines [eventTag ++ name, dataTag ++ payload] ++ post, f⟩, tid, out⟩ =
      Stream dec (n + 1) ⟨⟨unlines ls ++ post, f⟩, tid, out⟩ := by
  have h1 := step_append dec (unlines [eventTag ++ name, dataTag ++ payload] ++ post) f st1
    ls.length ls tid out (Nat.le_refl _) hls hpre
  have h2 := step_append dec post f st1 ls.length ls tid out (Nat.le_refl _) hls hpre
  rw [step_unknown dec name payload post f _ _ hname hpayload hk] at h1
  rw [Stream_succ, Stream_succ, List.append_assoc, h1, h2]

set_option maxRecDepth 100000 in
theorem unknown_event_ignored_ping :
    step goJson ⟨⟨unlines hiLines, none⟩, [], []⟩ =
      some (true, ⟨⟨[], none⟩, [], [.fprintf textFormat "hi".toList, .flush]⟩) ∧
    Stream goJson 1
        ⟨⟨unlines hiLines ++
            unlines [eventTag ++ "thread.run.step.created".toList, dataTag ++ "\x7b\x7d".toList] ++
            hiDelta, none⟩, [], []⟩ =
      Stream goJson 1 ⟨⟨unlines hiLines ++ hiDelta, none⟩, [], []⟩ :=
  ⟨by decide,
   unknown_event_ignored goJson hiLines "thread.run.step.created".toList "\x7b\x7d".toList hiDelta
    none [] [] ⟨⟨[], none⟩, [], [.fprintf textFormat "hi".toList, .flush]⟩ 0
    (by decide) (by decide) (by decide) (by decide) (by decide)⟩

set_option maxRecDepth 100000 in
/-- C9 fails as stated: `donezo` is none of the four names, yet its event line
begins like `event: done`, so the relay returns at it and the delta after it is
never written; without the two lines of the event the text `hi` is written. -/
theorem donezo_event_terminates :
    "donezo".toList ∉ eventNames ∧
    (Stream goJson 1 ⟨⟨donezoEvent ++ hiDelta, none⟩, [], []⟩).map
        (fun r => (r.1, chunks r.2.out)) = some (true, []) ∧
    (Stream goJson 1 ⟨⟨hiDelta, none⟩, [], []⟩).map
        (fun r => (r.1, chunks r.2.out)) = some (false, ["hi".toList]) := by
  decide

set_option maxRecDepth 100000 in
/-- C2 fails on the code: for the session identifier `a"b` (sent by the
upstream as the JSON string `"a\"b"`) the relay writes the identifier between
quotes without escaping it; the chunk is not a JSON text, so it announces no
identifier. -/
theorem quoted_id_announcement_not_json :
    (goJson.runCreated "\x7b\"thread_id\":\"a\\\"b\"\x7d".toList).toOption = some "a\"b".toList ∧
    (Stream goJson 1 ⟨⟨quotedCreated, none⟩, [], []⟩).map (fun r => chunks r.2.out) =
      some ["\x7b\"thread_id\":\"a\"b\"\x7d\n".toList] ∧
    parseJSON "\x7b\"thread_id\":\"a\"b\"\x7d\n".toList = none ∧
    announcedID "\x7b\"thread_id\":\"a\"b\"\x7d\n".toList = none := by
  refine ⟨by decide, by decide, rfl, by decide⟩

set_option maxRecDepth 100000 in
/-- The example of the specification: with `abc123` announced by the first
event, the first chunk is the JSON object announcing `abc123`, and the texts
follow it. -/
theorem abc123_announced_first :
    (Stream goJson 1 ⟨⟨abc123Stream, none⟩, [], []⟩).map (fun r => chunks r.2.out) =
      some ["\x7b\"thread_id\":\"abc123\"\x7d\n".toList, "Hel".toList, "lo".toList] ∧
    announcedID "\x7b\"thread_id\":\"abc123\"\x7d\n".toList = some "abc123".toList := by
  decide

/-! ## The claims about the handler before the stream -/

theorem mapGet_requestPayload (assistantID : List Char) (reqBody : ReqBody) :
    mapGet (requestPayload assistantID reqBody) "assistant_id".toList = some (.str assistantID) ∧
    mapGet (requestPayload assistantID reqBody) "thread".toList =
      some (.map [("messages".toList, .messages reqBody.Messages)]) ∧
    mapGet (requestPayload assistantID reqBody) "stream".toList = some (.bool true) ∧
    mapGet (requestPayload assistantID reqBody) "thread_id".toList =
      (if reqBody.ThreadID = [] then none else some (.str reqBody.ThreadID)) := by
  by_cases h : reqBody.ThreadID = []
  · simp [requestPayload, h, mapGet]
  · simp [requestPayload, h, mapGet, mapSet]

theorem handler_calls (dec : Decoder) (client : Client) (n : Nat)
    (body apiKey assistantID : List Char) (reqBody : ReqBody)
    (hb : dec.bindRequest body = .ok reqBody) (hk : apiKey ≠ []) (ha : assistantID ≠ []) :
    ∃ run, handler dec client n body apiKey assistantID = some run ∧
      run.calls = [newRequest apiKey (requestPayload assistantID reqBody)] := by
  have hcfg : ¬ (apiKey = [] ∨ assistantID = []) := by simp [hk, ha]
  simp only [handler, hb, hcfg, if_false]
  cases hc : client (newRequest apiKey (requestPayload assistantID reqBody)) with
  | error e => exact ⟨_, rfl, rfl⟩
  | ok resp =>
    simp only
    by_cases hs : resp.StatusCode = 200
    · simp only [hs, ne_eq, not_true_eq_false, if_false]
      have hsome := Stream_isSome dec n ⟨resp.Body, [], []⟩
      cases hst : Stream dec n ⟨resp.Body, [], []⟩ with
      | none => simp [hst] at hsome
      | some r =>
        obtain ⟨ret, st⟩ := r
        exact ⟨_, rfl, rfl⟩
    · simp only [ne_eq, hs, not_false_eq_true, if_true]
      exact ⟨_, rfl, rfl⟩

theorem handler_upstream_error (dec : Decoder) (client : Client) (n : Nat)
    (body apiKey assistantID : List Char) (reqBody : ReqBody) (resp : Response)
    (hb : dec.bindRequest body = .ok reqBody) (hk : apiKey ≠ []) (ha : assistantID ≠ [])
    (hc : client (newRequest apiKey (requestPayload assistantID reqBody)) = .ok resp)
    (hs : resp.StatusCode ≠ 200) :
    handler dec client n body apiKey assistantID =
      some { calls := [newRequest apiKey (requestPayload assistantID reqBody)],
             out := [.json resp.StatusCode (.detail (dec.errorResponse resp.Body).1)],
             returned := true } := by
  have hcfg : ¬ (apiKey = [] ∨ assistantID = []) := by simp [hk, ha]
  simp only [handler, hb, hcfg, if_false, hc, hs, ne_eq, not_false_eq_true, if_true]

/-- C4: for every request that reaches the upstream call (its body binds and
both secrets are set), the relay makes one upstream call, and the payload of
that call holds `assistant_id`, the request's messages under `thread.messages`
as they were bound, and `stream` set to true; it holds `thread_id`, with the
session token as value, exactly when the token is not empty, and for an empty
token the key is absent. -/
theorem upstream_payload (dec : Decoder) (client : Client) (n : Nat)
    (body apiKey assistantID : List Char) (reqBody : ReqBody)
    (hb : dec.bindRequest body = .ok reqBody) (hk : apiKey ≠ []) (ha : assistantID ≠ []) :
    ∃ run req, handler dec client n body apiKey assistantID = some run ∧ run.calls = [req] ∧
      mapGet req.Body "assistant_id".toList = some (.str assistantID) ∧
      mapGet req.Body "thread".toList =
        some (.map [("messages".toList, .messages reqBody.Messages)]) ∧
      mapGet req.Body "stream".toList = some (.bool true) ∧
      mapGet req.Body "thread_id".toList =
        (if reqBody.ThreadID = [] then none else some (.str reqBody.ThreadID)) := by
  obtain ⟨run, hrun, hcalls⟩ := handler_calls dec client n body apiKey assistantID reqBody hb hk ha
  exact ⟨run, _, hrun, hcalls, mapGet_requestPayload assistantID reqBody⟩

set_option maxRecDepth 100000 in
theorem upstream_payload_turn :
    goJson.bindRequest turnRequest = .ok turnReqBody ∧
    ∃ run req, handler goJson rateLimited 1 turnRequest "sk-1".toList "asst_1".toList = some run ∧
      run.calls = [req] ∧
      mapGet req.Body "assistant_id".toList = some (.str "asst_1".toList) ∧
      mapGet req.Body "thread".toList =
        some (.map [("messages".toList, .messages turnReqBody.Messages)]) ∧
      mapGet req.Body "stream".toList = some (.bool true) ∧
      mapGet req.Body "thread_id".toList =
        (if turnReqBody.ThreadID = [] then none else some (.str turnReqBody.ThreadID)) :=
  ⟨by decide,
   upstream_payload goJson rateLimited 1 turnRequest "sk-1".toList "asst_1".toList turnReqBody
    (by decide) (by decide) (by decide)⟩

/-- C5: when the upstream answers with a status other than 200 and the body
decodes as the structured error object, the relay writes no stream chunk and
answers the client with the upstream's status code and an envelope whose
`error` is the decoded object (its four fields as decoded, an absent one being
the empty string the struct starts with). -/
theorem upstream_error_passthrough (dec : Decoder) (client : Client) (n : Nat)
    (body apiKey assistantID : List Char) (reqBody : ReqBody) (resp : Response)
    (d : ErrorDetail)
    (hb : dec.bindRequest body = .ok reqBody) (hk : apiKey ≠ []) (ha : assistantID ≠ [])
    (hc : client (newRequest apiKey (requestPayload assistantID reqBody)) = .ok resp)
    (hs : resp.StatusCode ≠ 200) (hd : dec.errorResponse resp.Body = (d, none)) :
    ∃ run, handler dec client n body apiKey assistantID = some run ∧
      run.out = [.json resp.StatusCode (.detail d)] ∧ chunks run.out = [] ∧
      run.returned = true := by
  refine ⟨_, handler_upstream_error dec client n body apiKey assistantID reqBody resp
    hb hk ha hc hs, ?_, ?_, rfl⟩
  · simp [hd]
  · rfl

set_option maxRecDepth 100000 in
theorem upstream_error_passthrough_429 :
    ∃ run, handler goJson rateLimited 1 turnRequest "sk-1".toList "asst_1".toList = some run ∧
      run.out = [.json 429 (.detail ⟨"rate limited".toList, "rate_limit".toList, [], []⟩)] ∧
      chunks run.out = [] ∧ run.returned = true :=
  upstream_error_passthrough goJson rateLimited 1 turnRequest "sk-1".toList "asst_1".toList
    turnReqBody
    ⟨429, ⟨"\x7b\"error\":\x7b\"message\":\"rate limited\",\"type\":\"rate_limit\"\x7d\x7d".toList,
      none⟩⟩
    ⟨"rate limited".toList, "rate_limit".toList, [], []⟩
    (by decide) (by decide) (by decide) rfl (by decide) (by decide)

/-- C10, as the code has it: when the upstream answers with a status other than
200 and decoding the body as the structured error object fails, the relay still
answers the client with the upstream's status code, and the `error` of the
envelope is the struct as the failed decode left it; the error of the decode is
dropped and no message is put in its place. -/
theorem upstream_error_undecodable (dec : Decoder) (client : Client) (n : Nat)
    (body apiKey assistantID : List Char) (reqBody : ReqBody) (resp : Response)
    (d : ErrorDetail) (e : List Char)
    (hb : dec.bindRequest body = .ok reqBody) (hk : apiKey ≠ []) (ha : assistantID ≠ [])
    (hc : client (newRequest apiKey (requestPayload assistantID reqBody)) = .ok resp)
    (hs : resp.StatusCode ≠ 200) (hd : dec.errorResponse resp.Body = (d, some e)) :
    ∃ run, handler dec client n body apiKey assistantID = some run ∧
      run.out = [.json resp.StatusCode (.detail d)] ∧ run.returned = true := by
  refine ⟨_, handler_upstream_error dec client n body apiKey assistantID reqBody resp
    hb hk ha hc hs, ?_, rfl⟩
  simp [hd]

set_option maxRecDepth 100000 in
theorem upstream_error_undecodable_code :
    ∃ run, handler goJson numericCode 1 turnRequest "sk-1".toList "asst_1".toList = some run ∧
      run.out = [.json 500 (.detail ⟨"boom".toList, [], [], []⟩)] ∧ run.returned = true :=
  upstream_error_undecodable goJson numericCode 1 turnRequest "sk-1".toList "asst_1".toList
    turnReqBody
    ⟨500, ⟨"\x7b\"error\":\x7b\"message\":\"boom\",\"code\":7\x7d\x7d".toList, none⟩⟩
    ⟨"boom".toList, [], [], []⟩ (typeError (.num "7".toList) "string".toList)
    (by decide) (by decide) (by decide) rfl (by decide) (by decide)

set_option maxRecDepth 100000 in
/-- C10 fails as stated: for a 502 whose body is the text `Bad Gateway` the
decode fails and the envelope carries an empty message, not a synthetic one. -/
theorem bad_gateway_empty_message :
    (goJson.errorResponse ⟨"Bad Gateway".toList, none⟩).2.isSome = true ∧
    handler goJson badGateway 1 turnRequest "sk-1".toList "asst_1".toList =
      some { calls := [newRequest "sk-1".toList (requestPayload "asst_1".toList turnReqBody)],
             out := [.json 502 (.detail ⟨[], [], [], []⟩)],
             returned := true } := by
  decide

/-- C6, as the code has it: when the API key or the assistant identifier is
empty, every request fails with no upstream call made; the request body is
bound first, so a body that fails to bind is answered 400 with the binding
error, and a body that binds is answered 500 with the fixed configuration
message and nothing else. -/
theorem missing_config_fails (dec : Decoder) (client : Client) (n : Nat)
    (body apiKey assistantID : List Char) (h : apiKey = [] ∨ assistantID = []) :
    ∃ run, handler dec client n body apiKey assistantID = some run ∧ run.calls = [] ∧
      run.returned = true ∧
      ((∃ reqBody, dec.bindRequest body = .ok reqBody ∧
          run.out = [.json 500 (.text missingConfig)]) ∨
       (∃ e, dec.bindRequest body = .error e ∧ run.out = [.json 400 (.text e)])) := by
  cases hb : dec.bindRequest body with
  | error e =>
    refine ⟨{ calls := [], out := [.json 400 (.text e)], returned := true }, ?_, rfl, rfl,
      Or.inr ⟨e, rfl, rfl⟩⟩
    simp only [handler, hb]
  | ok reqBody =>
    refine ⟨{ calls := [], out := [.json 500 (.text missingConfig)], returned := true }, ?_,
      rfl, rfl, Or.inl ⟨reqBody, rfl, rfl⟩⟩
    simp only [handler, hb, h, if_true]

set_option maxRecDepth 100000 in
theorem missing_config_fails_no_key :
    ∃ run, handler goJson rateLimited 1 turnRequest [] "asst_1".toList = some run ∧
      run.calls = [] ∧ run.returned = true ∧
      ((∃ reqBody, goJson.bindRequest turnRequest = .ok reqBody ∧
          run.out = [.json 500 (.text missingConfig)]) ∨
       (∃ e, goJson.bindRequest turnRequest = .error e ∧ run.out = [.json 400 (.text e)])) :=
  missing_config_fails goJson rateLimited 1 turnRequest [] "asst_1".toList (Or.inl rfl)

set_option maxRecDepth 100000 in
/-- C6 fails as stated: with the API key missing, a request whose body is not
JSON is answered 400 with the binding error, not 500. -/
theorem missing_config_bad_request :
    (handler goJson rateLimited 1 "not json".toList [] "asst_1".toList).map
        (fun run => (run.calls, run.out.map Effect.status, run.returned)) =
      some ([], [some 400], true) := by
  decide

end OpenAIProxy
